import Mathlib

/-!
# Run chart of the sampler dashboard

A shallow embedding of `widgets/runchart.go` (the multi-series time chart: ingestion of samples,
grid computation, coordinate mapping, line rendering and legend), followed by theorems about it.

Conventions of the embedding.

* Go `int` is the 64-bit signed integer.  Screen coordinates are kept as unbounded `Int` (they are
  cell positions of a terminal); durations and the refresh interval, whose products can leave the
  64-bit range, are wrapped explicitly with `wrap64`.
* `time.Time` is an instant in nanoseconds (`Int`), `time.Duration` a number of nanoseconds.
* A `float64` that is stored in a point is a value of `Float64` (NaN, the two infinities, or a finite
  double given by its exact rational value).  Only comparisons are applied to stored values.
* The float arithmetic of `calculateTimeCoordinate` works on doubles obtained from 64-bit integers;
  every intermediate result is a finite normal double, which is modelled by its exact rational
  value and the IEEE rounding `roundFloat64` (nearest, ties to even, 53-bit significand).
* Functions of the Go library whose results are strings or depend on the full float64 arithmetic
  are fields of `GoLib`; every theorem holds for all of them.
* A slice index out of range makes the Go program panic; the functions that index a slice return
  `Option`, with `none` for the panic.
-/

namespace Sampler

/-! ## float64 -/

/-- A float64 value: NaN, minus infinity, a finite double with exact value `q`, plus infinity. -/
inductive Float64 where
  | nan
  | negInf
  | fin (q : ℚ)
  | posInf
  deriving DecidableEq

namespace Float64

/-- The exact value of `math.MaxFloat64`, (2 - 2^-52) * 2^1023. -/
def maxFinite : ℚ := (2 ^ 53 - 1) * 2 ^ 971

/-- The constant `math.MaxFloat64`. -/
def MaxFloat64 : Float64 := .fin maxFinite

/-- The constant `-math.MaxFloat64`. -/
def negMaxFloat64 : Float64 := .fin (-maxFinite)

/-- IEEE comparison `a < b`: false as soon as one side is NaN. -/
def lt : Float64 → Float64 → Bool
  | .nan, _ => false
  | _, .nan => false
  | .negInf, .negInf => false
  | .negInf, _ => true
  | _, .negInf => false
  | .posInf, _ => false
  | .fin _, .posInf => true
  | .fin a, .fin b => decide (a < b)

/-- IEEE comparison `a > b`. -/
def gt (a b : Float64) : Bool := lt b a

/-- IEEE comparison `a == b`: NaN is different from every value, itself included. -/
def eq : Float64 → Float64 → Bool
  | .nan, _ => false
  | _, .nan => false
  | a, b => decide (a = b)

/-- The magnitude of a finite value does not exceed `math.MaxFloat64`; every double satisfies
this. -/
def Valid : Float64 → Prop
  | .fin q => |q| ≤ maxFinite
  | _ => True

/-- The value is a finite number (neither NaN nor an infinity). -/
def IsFinite : Float64 → Prop
  | .fin _ => True
  | _ => False

end Float64

/-! ## 64-bit integers, durations and instants -/

/-- The value of a 64-bit signed integer after an arithmetic operation with exact result `n`. -/
def wrap64 (n : Int) : Int := (n + 2 ^ 63) % 2 ^ 64 - 2 ^ 63

/-- Largest `time.Duration`. -/
def maxDuration : Int := 2 ^ 63 - 1

/-- Smallest `time.Duration`. -/
def minDuration : Int := -2 ^ 63

/-- The duration `time.Millisecond`. -/
def Millisecond : Int := 1000000

/-- The duration `time.Second`. -/
def Second : Int := 1000000000

/-- The helper `lessThanHalf` of package time: `uint64(x)+uint64(x) < uint64(y)`. -/
def lessThanHalf (x y : Int) : Bool :=
  decide ((x % 2 ^ 64 + x % 2 ^ 64) % 2 ^ 64 < y % 2 ^ 64)

/-- The method `Duration.Round` of package time: `d` rounded to the nearest multiple of `m`,
halfway values away from zero, saturating at the largest or smallest duration. -/
def Round (d m : Int) : Int :=
  if m ≤ 0 then d
  else
    let r := Int.tmod d m
    if d < 0 then
      let r := wrap64 (-r)
      if lessThanHalf r m then wrap64 (d + r)
      else
        let d1 := wrap64 (wrap64 (d - m) + r)
        if d1 < d then d1 else minDuration
    else
      if lessThanHalf r m then wrap64 (d - r)
      else
        let d1 := wrap64 (wrap64 (d + m) - r)
        if d1 > d then d1 else maxDuration

/-- The test `d.Seconds() == 0`.  `Seconds` returns `float64(d / Second) + float64(d % Second) / 1e9`;
the two summands have the sign of `d`, so the sum is zero exactly when both are. -/
def secondsIsZero (d : Int) : Bool :=
  decide (Int.tdiv d Second = 0) && decide (Int.tmod d Second = 0)

/-- The method `Time.Sub`: the difference of two instants, saturating at the limits of
`time.Duration`. -/
def Sub (t u : Int) : Int :=
  if t - u > maxDuration then maxDuration
  else if t - u < minDuration then minDuration
  else t - u

/-- The zero `time.Time` (January 1, year 1, 00:00 UTC) in nanoseconds relative to the Unix
epoch. -/
def zeroTime : Int := -62135596800 * 1000000000

/-! ## float64 arithmetic on integer-derived values -/

/-- Rounding of a rational to the nearest integer, ties to the even one. -/
def roundHalfEven (x : ℚ) : Int :=
  if x - ⌊x⌋ < 1 / 2 then ⌊x⌋
  else if 1 / 2 < x - ⌊x⌋ then ⌊x⌋ + 1
  else if ⌊x⌋ % 2 = 0 then ⌊x⌋ else ⌊x⌋ + 1

/-- The double nearest to `q` (ties to even) for 53-bit significands; exponent range is not
limited, which is exact as long as the magnitude of `q` is that of a normal double. -/
def roundFloat64 (q : ℚ) : ℚ :=
  if q = 0 then 0
  else
    let ulp : ℚ := 2 ^ (Int.log 2 |q| - 52)
    if q < 0 then -((roundHalfEven (|q| / ulp) : ℚ) * ulp)
    else (roundHalfEven (|q| / ulp) : ℚ) * ulp

/-- The conversion `float64(n)` of an integer. -/
def float64OfInt (n : Int) : ℚ := roundFloat64 (n : ℚ)

/-- The conversion `int(f)` of a float64 whose value is within the 64-bit range: truncation
towards zero. -/
def truncToInt (q : ℚ) : Int := if 0 ≤ q then ⌊q⌋ else ⌈q⌉

/-! ## Data model -/

/-- The type `image.Point`. -/
structure Point where
  X : Int
  Y : Int
  deriving DecidableEq

/-- The type `image.Rectangle`. -/
structure Rectangle where
  Min : Point
  Max : Point
  deriving DecidableEq

/-- The constructor `image.Rect`, which orders the coordinates. -/
def Rect (x0 y0 x1 y1 : Int) : Rectangle :=
  { Min := ⟨if x0 > x1 then x1 else x0, if y0 > y1 then y1 else y0⟩
    Max := ⟨if x0 > x1 then x0 else x1, if y0 > y1 then y0 else y1⟩ }

/-- The method `Rectangle.Dx`. -/
def Rectangle.Dx (r : Rectangle) : Int := r.Max.X - r.Min.X

/-- The method `Rectangle.Dy`. -/
def Rectangle.Dy (r : Rectangle) : Int := r.Max.Y - r.Min.Y

/-- The method `Point.In`. -/
def Point.In (p : Point) (r : Rectangle) : Bool :=
  decide (r.Min.X ≤ p.X) && decide (p.X < r.Max.X) && decide (r.Min.Y ≤ p.Y) &&
    decide (p.Y < r.Max.Y)

def xAxisLegendWidth : Int := 20
def xAxisLabelsHeight : Int := 1
def xAxisLabelsWidth : Int := 8
def xAxisLabelsGap : Int := 2
def xAxisGridWidth : Int := xAxisLabelsGap + xAxisLabelsWidth
def yAxisLabelsHeight : Int := 1
def yAxisLabelsGap : Int := 1
def chartHistoryReserve : Int := 5

structure valueExtrema where
  max : Float64
  min : Float64
  deriving DecidableEq

structure timeRange where
  max : Int
  min : Int
  deriving DecidableEq

structure timePoint where
  value : Float64
  time : Int
  timeCoordinate : Int
  deriving DecidableEq

structure timeLine where
  points : List timePoint
  color : Nat
  label : String
  deriving DecidableEq

structure chartGrid where
  valueExtrema : valueExtrema
  timeRange : timeRange
  linesCount : Int
  paddingWidth : Int
  maxTimeWidth : Int
  minTimeWidth : Int
  deriving DecidableEq

/-- The chart.  `Inner` is the inner rectangle of the embedded `ui.Block`; the mutex is left
out. -/
structure RunChart where
  Inner : Rectangle
  lines : List timeLine
  grid : chartGrid
  precision : Int
  timescale : Int
  deriving DecidableEq

/-- Modelled from the spec: the type `data.Sample` is declared in package data, which is not among
the sources; a sample carries a label, the raw value string and a color. -/
structure Sample where
  Label : String
  Value : String
  Color : Nat
  deriving DecidableEq

/-- The functions of the Go library used by the chart that are not modelled here. -/
structure GoLib where
  /-- The call `strconv.ParseFloat(s, 64)`: the returned float and whether the error is non-nil. -/
  ParseFloat : String → Float64 × Bool
  /-- The call `fmt.Sprintf("%." + strconv.Itoa(precision) + "f", value)`. -/
  Sprintf : Int → Float64 → String
  /-- The float64 expression of `renderLines` for the row of a value when the extrema differ:
  `int(float64(value - min) / ((max - min) / float64(dy)))` for the extrema and `dy = Dy() - 2`. -/
  scaleY : valueExtrema → Int → Float64 → Int

/-! ## Operations of `runchart.go` -/

def calculateTimescale (refreshRateMs : Int) : Int :=
  let multiplier := Int.tdiv (wrap64 (refreshRateMs * xAxisGridWidth)) 2
  let timescale := Round (wrap64 (Millisecond * multiplier)) Second
  if secondsIsZero timescale then Second else timescale

/-- The constructor.  The block is new (zero inner rectangle) and the grid is the zero value of
its type; the title is only displayed. -/
def NewRunChart (precision : Int) (refreshRateMs : Int) : RunChart :=
  { Inner := ⟨⟨0, 0⟩, ⟨0, 0⟩⟩
    lines := []
    grid :=
      { valueExtrema := ⟨.fin 0, .fin 0⟩
        timeRange := ⟨zeroTime, zeroTime⟩
        linesCount := 0
        paddingWidth := 0
        maxTimeWidth := 0
        minTimeWidth := 0 }
    precision := precision
    timescale := calculateTimescale refreshRateMs }

/-- The method `calculateTimeCoordinate`.  For a zero timescale the Go quotient is an infinity or
NaN and the conversion to `int` is implementation-defined; the model is meaningful for the nonzero
timescales that `calculateTimescale` produces. -/
def calculateTimeCoordinate (self : RunChart) (t : Int) : Int :=
  let timeDeltaWithGridMaxTime := Sub self.grid.timeRange.max t
  let timeDeltaToPaddingRelation :=
    roundFloat64 (float64OfInt timeDeltaWithGridMaxTime / float64OfInt self.timescale)
  self.grid.maxTimeWidth -
    truncToInt (roundFloat64 (float64OfInt xAxisGridWidth * timeDeltaToPaddingRelation))

def formatValue (lib : GoLib) (value : Float64) (precision : Int) : String :=
  lib.Sprintf precision value

/-- The method `timeRange.isInRange`: `time.After(r.min) && time.Before(r.max)`. -/
def timeRange.isInRange (r : timeRange) (time : Int) : Bool :=
  decide (r.min < time) && decide (time < r.max)

/-- One iteration of the inner loop of `getValueExtrema`. -/
def extremaStep (r : timeRange) (acc : valueExtrema) (point : timePoint) : valueExtrema :=
  let max := if Float64.gt point.value acc.max && r.isInRange point.time then point.value
    else acc.max
  let min := if Float64.lt point.value acc.min && r.isInRange point.time then point.value
    else acc.min
  ⟨max, min⟩

def getValueExtrema (items : List timeLine) (timeRange : timeRange) : valueExtrema :=
  if items.length = 0 then ⟨.fin 0, .fin 0⟩
  else
    items.foldl (fun acc item => item.points.foldl (extremaStep timeRange) acc)
      ⟨Float64.negMaxFloat64, Float64.MaxFloat64⟩

/-- One iteration of the loop of `getLineValueExtremum`. -/
def extremumStep (acc : valueExtrema) (point : timePoint) : valueExtrema :=
  let max := if Float64.gt point.value acc.max then point.value else acc.max
  let min := if Float64.lt point.value acc.min then point.value else acc.min
  ⟨max, min⟩

def getLineValueExtremum (points : List timePoint) : valueExtrema :=
  if points.length = 0 then ⟨.fin 0, .fin 0⟩
  else points.foldl extremumStep ⟨Float64.negMaxFloat64, Float64.MaxFloat64⟩

/-- The function `getTimeRange`; `now` is the result of its call of `time.Now()`. -/
def getTimeRange (linesCount : Int) (scale : Int) (now : Int) : timeRange :=
  { max := now
    min := now + wrap64 (-wrap64 (scale * linesCount)) }

def getMaxValueLength (lib : GoLib) (self : RunChart) : Int :=
  self.lines.foldl
    (fun maxValueLength line =>
      line.points.foldl
        (fun maxValueLength point =>
          let l : Int := (formatValue lib point.value self.precision).utf8ByteSize
          if l > maxValueLength then l else maxValueLength)
        maxValueLength)
    0

def newChartGrid (lib : GoLib) (self : RunChart) (now : Int) : chartGrid :=
  let linesCount :=
    Int.tdiv (self.Inner.Max.X - self.Inner.Min.X - self.grid.minTimeWidth) xAxisGridWidth
  let timeRange := getTimeRange linesCount self.timescale now
  { timeRange := timeRange
    valueExtrema := getValueExtrema self.lines timeRange
    linesCount := linesCount
    paddingWidth := xAxisGridWidth
    maxTimeWidth := self.Inner.Max.X
    minTimeWidth := getMaxValueLength lib self }

/-- The method `newTimePoint`; `now` is the result of its call of `time.Now()`. -/
def newTimePoint (self : RunChart) (value : Float64) (now : Int) : timePoint :=
  { value := value
    time := now
    timeCoordinate := calculateTimeCoordinate self now }

/-- The method `trimOutOfRangeValues`: its body is empty. -/
def trimOutOfRangeValues (self : RunChart) : RunChart := self

/-- The element `s[i]` of a slice for a Go `int` index: `none` when the index is out of range. -/
def index {α : Type} (s : List α) (i : Int) : Option α :=
  if i < 0 then none else s[i.toNat]?

/-- The label loop of `ConsumeSample`: `lineIndex` after the lines from position `i` on have been
visited. -/
def findLineIndex (label : String) : List timeLine → Int → Int → Int
  | [], _, lineIndex => lineIndex
  | line :: rest, i, lineIndex =>
    findLineIndex label rest (i + 1) (if line.label = label then i else lineIndex)

/-- The method `ConsumeSample`; `now` is the result of the call of `time.Now()` in
`newTimePoint`.  The error of `ParseFloat` is not used. -/
def ConsumeSample (lib : GoLib) (self : RunChart) (sample : Sample) (now : Int) :
    Option RunChart :=
  let float := (lib.ParseFloat sample.Value).1
  let lineIndex := findLineIndex sample.Label self.lines 0 (-1)
  let lines := if lineIndex = -1 then
      self.lines ++ [{ points := [], color := sample.Color, label := sample.Label }]
    else self.lines
  let lineIndex := if lineIndex = -1 then (lines.length : Int) - 1 else lineIndex
  match index lines lineIndex with
  | none => none
  | some line =>
    let timePoint := newTimePoint self float now
    let line := { line with points := line.points ++ [timePoint] }
    some (trimOutOfRangeValues { self with lines := lines.set lineIndex.toNat line })

/-- The row of a value in `renderLines`: the middle row when the extrema are equal, and the
scaled float64 expression otherwise. -/
def pointY (lib : GoLib) (grid : chartGrid) (drawArea : Rectangle) (value : Float64) : Int :=
  if Float64.eq grid.valueExtrema.max grid.valueExtrema.min then Int.tdiv (drawArea.Dy - 2) 2
  else lib.scaleY grid.valueExtrema (drawArea.Dy - 2) value

/-- The state of the first inner loop of `renderLines` for one line: the points visited so far
(with their corrected time coordinate), the map `xToPoint` as the list of its entries in the
order of insertion, and `pointsOrder`. -/
structure lineScan where
  points : List timePoint
  xToPoint : List (Int × Point)
  pointsOrder : List Int
  deriving DecidableEq

/-- The cell of a point in `renderLines`, after the correction of its time coordinate. -/
def pointCell (lib : GoLib) (grid : chartGrid) (drawArea : Rectangle) (delta : Int)
    (timePoint : timePoint) : Point :=
  ⟨timePoint.timeCoordinate - delta,
    drawArea.Max.Y - pointY lib grid drawArea timePoint.value - 1⟩

/-- One iteration of the first inner loop of `renderLines`. -/
def scanPoint (lib : GoLib) (grid : chartGrid) (drawArea : Rectangle) (delta : Int)
    (st : lineScan) (timePoint : timePoint) : lineScan :=
  let point := pointCell lib grid drawArea delta timePoint
  let timePoint := { timePoint with timeCoordinate := timePoint.timeCoordinate - delta }
  let st := { st with points := st.points ++ [timePoint] }
  if (st.xToPoint.lookup point.X).isSome then st
  else if !point.In drawArea then st
  else { st with
    xToPoint := st.xToPoint ++ [(point.X, point)]
    pointsOrder := st.pointsOrder ++ [point.X] }

/-- The first inner loop of `renderLines` over the points of one line. -/
def scanLine (lib : GoLib) (grid : chartGrid) (drawArea : Rectangle) (delta : Int)
    (points : List timePoint) : lineScan :=
  points.foldl (scanPoint lib grid drawArea delta) ⟨[], [], []⟩

/-- A map access `xToPoint[x]`: the zero point when the key is absent. -/
def mapGet (xToPoint : List (Int × Point)) (x : Int) : Point :=
  (xToPoint.lookup x).getD ⟨0, 0⟩

/-- A call of `canvas.Line` in `renderLines`: the two ends (before `braillePoint`) and the
color. -/
structure Segment where
  previousPoint : Point
  currentPoint : Point
  color : Nat
  deriving DecidableEq

/-- The second inner loop of `renderLines`, from position `i` on: one segment per entry of
`pointsOrder`; `rest` is the part of `pointsOrder` not yet visited. -/
def drawSegments (xToPoint : List (Int × Point)) (pointsOrder : List Int) (color : Nat) :
    List Int → Int → Option (List Segment)
  | [], _ => some []
  | x :: rest, i =>
    let currentPoint := mapGet xToPoint x
    let previousPoint : Option Point :=
      if i = 0 then some currentPoint
      else (index pointsOrder (i - 1)).map (mapGet xToPoint)
    match previousPoint, drawSegments xToPoint pointsOrder color rest (i + 1) with
    | some previousPoint, some segments => some (⟨previousPoint, currentPoint, color⟩ :: segments)
    | _, _ => none

/-- The body of the outer loop of `renderLines` for one line: the line with the corrected points
and the segments drawn. -/
def renderLine (lib : GoLib) (grid : chartGrid) (drawArea : Rectangle) (delta : Int)
    (line : timeLine) : Option (timeLine × List Segment) :=
  let st := scanLine lib grid drawArea delta line.points
  (drawSegments st.xToPoint st.pointsOrder line.color st.pointsOrder 0).map
    (fun segments => ({ line with points := st.points }, segments))

/-- The method `renderLines`: the chart with the corrected time coordinates and the segments drawn
on the canvas, line by line. -/
def renderLines (lib : GoLib) (self : RunChart) (drawArea : Rectangle) :
    Option (RunChart × List (List Segment)) :=
  if self.lines.length = 0 then some (self, [])
  else
    match index self.lines 0 with
    | none => none
    | some first =>
      if first.points.length = 0 then some (self, [])
      else
        match index first.points 0 with
        | none => none
        | some probe =>
          let delta := |calculateTimeCoordinate self probe.time - probe.timeCoordinate|
          (self.lines.mapM (renderLine lib self.grid drawArea delta)).map
            (fun rendered =>
              ({ self with lines := rendered.map Prod.fst }, rendered.map Prod.snd))

/-- The texts that `renderLegend` writes for one line. -/
structure LegendEntry where
  label : String
  cur : String
  max : String
  min : String
  deriving DecidableEq

/-- The body of the loop of `renderLegend` for one line. -/
def legendEntry (lib : GoLib) (self : RunChart) (line : timeLine) : Option LegendEntry :=
  let extremum := getLineValueExtremum line.points
  match index line.points ((line.points.length : Int) - 1) with
  | none => none
  | some last =>
    some
      { label := line.label
        cur := "cur " ++ formatValue lib last.value self.precision
        max := "max " ++ formatValue lib extremum.max self.precision
        min := "min " ++ formatValue lib extremum.min self.precision }

def renderLegend (lib : GoLib) (self : RunChart) : Option (List LegendEntry) :=
  self.lines.mapM (legendEntry lib self)

/-- What a render pass draws for the lines: the segments of every line and the legend. -/
structure Frame where
  segments : List (List Segment)
  legend : List LegendEntry
  deriving DecidableEq

/-- The method `Draw`; `now` is the result of the call of `time.Now()` in `getTimeRange`.
`renderAxes` only writes cells and strings computed from the grid into the buffer and is left
out. -/
def Draw (lib : GoLib) (self : RunChart) (now : Int) : Option (RunChart × Frame) :=
  let self := { self with grid := newChartGrid lib self now }
  let drawArea := Rect (self.Inner.Min.X + self.grid.minTimeWidth + 1) self.Inner.Min.Y
    self.Inner.Max.X (self.Inner.Max.Y - xAxisLabelsHeight - 1)
  match renderLines lib self drawArea with
  | none => none
  | some (self, segments) =>
    match renderLegend lib self with
    | none => none
    | some legend => some (self, ⟨segments, legend⟩)

/-! ## Notions used in the statements -/

/-- The values of the stored points whose instant is strictly inside the time range, line by
line in arrival order. -/
def inRangeValues (items : List timeLine) (r : timeRange) : List Float64 :=
  items.flatMap (fun item => (item.points.filter (fun p => r.isInRange p.time)).map (·.value))

/-- The lines without the points whose instant is at or outside the bounds of the time range. -/
def dropOutOfRange (items : List timeLine) (r : timeRange) : List timeLine :=
  items.map (fun item => { item with points := item.points.filter (fun p => r.isInRange p.time) })

/-- The points of a line with the time coordinates corrected by `delta`, as `renderLines` stores
them back. -/
def correctPoints (delta : Int) (points : List timePoint) : List timePoint :=
  points.map (fun p => { p with timeCoordinate := p.timeCoordinate - delta })

/-- The running maximum of `getValueExtrema` over a list of values. -/
def foldMax (m : Float64) (vs : List Float64) : Float64 :=
  vs.foldl (fun m v => if Float64.gt v m then v else m) m

/-- The running minimum of `getValueExtrema` over a list of values. -/
def foldMin (m : Float64) (vs : List Float64) : Float64 :=
  vs.foldl (fun m v => if Float64.lt v m then v else m) m

/-! ## Sequences of calls -/

/-- The chart after a sequence of calls of `ConsumeSample`, each with the instant at which it
reads the clock. -/
def consumeAll (lib : GoLib) (self : RunChart) : List (Sample × Int) → Option RunChart
  | [] => some self
  | (sample, now) :: rest =>
    (ConsumeSample lib self sample now).bind (fun self => consumeAll lib self rest)

/-- A call on a chart: the ingestion of a sample, or a render pass after the layout has set the
inner rectangle of the block; both with the instant at which the clock is read. -/
inductive Call where
  | consume (sample : Sample) (now : Int)
  | draw (inner : Rectangle) (now : Int)
  deriving DecidableEq

/-- The chart after one call. -/
def step (lib : GoLib) (self : RunChart) : Call → Option RunChart
  | .consume sample now => ConsumeSample lib self sample now
  | .draw inner now => (Draw lib { self with Inner := inner } now).map Prod.fst

/-- The chart after a sequence of calls. -/
def run (lib : GoLib) (self : RunChart) : List Call → Option RunChart
  | [] => some self
  | call :: rest => (step lib self call).bind (fun self => run lib self rest)

/-- What holds of the state of the first inner loop of `renderLines` after the points `points`. -/
structure ScanInv (lib : GoLib) (grid : chartGrid) (drawArea : Rectangle) (delta : Int)
    (points : List timePoint) (st : lineScan) : Prop where
  points_eq : st.points = correctPoints delta points
  order_eq : st.pointsOrder = st.xToPoint.map Prod.fst
  nodup : (st.xToPoint.map Prod.fst).Nodup
  inside : ∀ e ∈ st.xToPoint, e.2.X = e.1 ∧ e.2.In drawArea = true
  first : ∀ x, st.xToPoint.lookup x =
    ((points.map (pointCell lib grid drawArea delta)).filter (fun c => c.In drawArea)).find?
      (fun c => c.X == x)

/-- The float64 row expression of `renderLines`, `int(float64(value - min) / ((max - min) /
float64(dy)))`, evaluated without rounding on finite values.  It is the float64 result whenever
the operands and every intermediate result are doubles, as for the small integers of the example
below. -/
def exactScaleY (e : valueExtrema) (dy : Int) (value : Float64) : Int :=
  match e.max, e.min, value with
  | .fin max, .fin min, .fin value => truncToInt ((value - min) / ((max - min) / (dy : ℚ)))
  | _, _, _ => 0

/-- A library for the example below; `renderLines` uses only its field `scaleY`. -/
def exactLib : GoLib :=
  { ParseFloat := fun _ => (.fin 0, true)
    Sprintf := fun _ _ => ""
    scaleY := exactScaleY }

/-- A chart with one line of two points that were ingested in the same column (time coordinate
5) with the values 0.0 and 4.0; the grid ends at the instant of the points, its extrema are
those of the line. -/
def twoPointChart : RunChart :=
  { Inner := ⟨⟨0, 0⟩, ⟨10, 8⟩⟩
    lines := [⟨[⟨.fin 0, 100, 5⟩, ⟨.fin 4, 100, 5⟩], 0, "a"⟩]
    grid := ⟨⟨.fin 4, .fin 0⟩, ⟨100, 100⟩, 0, 10, 5, 4⟩
    precision := 2
    timescale := Second }

/-- Every stored line holds at least one point. -/
def linesNonempty (self : RunChart) : Prop := ∀ line ∈ self.lines, line.points ≠ []

/-! # Theorems -/

/-! ## Durations and the timescale -/

theorem Round_second_of_nonneg (d : Int) (h0 : 0 ≤ d) (h1 : d < 2 ^ 63) :
    Round d Second =
      if 2 * (d % 1000000000) < 1000000000 then d - d % 1000000000
      else if d + 1000000000 - d % 1000000000 < 2 ^ 63 then d + 1000000000 - d % 1000000000
      else maxDuration := by
  have hr : Int.tmod d 1000000000 = d % 1000000000 := Int.tmod_eq_emod h0 (by omega)
  unfold Round lessThanHalf
  simp only [Second, hr, decide_eq_true_eq]
  unfold wrap64 maxDuration
  split_ifs <;> omega

theorem calculateTimescale_closed (r : Int) (h0 : 0 ≤ r) (h1 : r ≤ 1844674407370) :
    calculateTimescale r =
      max Second (min maxDuration ((r + 100) / 200 * Second)) := by
  have hmul : Int.tdiv (wrap64 (r * xAxisGridWidth)) 2 = r * 5 := by
    have : wrap64 (r * xAxisGridWidth) = r * 10 := by
      unfold wrap64 xAxisGridWidth xAxisLabelsGap xAxisLabelsWidth; omega
    rw [this, Int.tdiv_eq_ediv (by omega) (by omega)]; omega
  have hd : wrap64 (Millisecond * (r * 5)) = 5000000 * r := by
    unfold wrap64 Millisecond; omega
  unfold calculateTimescale
  simp only [hmul, hd]
  rw [Round_second_of_nonneg _ (by omega) (by omega)]
  unfold secondsIsZero
  simp only [Second, maxDuration, Bool.and_eq_true, decide_eq_true_eq]
  have key : ∀ x : Int, 0 ≤ x → (Int.tdiv x 1000000000 = 0 ∧ Int.tmod x 1000000000 = 0 ↔ x = 0) := by
    intro x hx
    rw [Int.tdiv_eq_ediv hx (by omega), Int.tmod_eq_emod hx (by omega)]
    omega
  split_ifs <;> first | omega | (rw [key _ (by omega)] at *; omega)

/-! ## Rounding to float64 -/

theorem roundHalfEven_ge_floor (x : ℚ) : ⌊x⌋ ≤ roundHalfEven x := by
  unfold roundHalfEven; split_ifs <;> omega

theorem roundHalfEven_le_floor_succ (x : ℚ) : roundHalfEven x ≤ ⌊x⌋ + 1 := by
  unfold roundHalfEven; split_ifs <;> omega

theorem roundHalfEven_intCast (n : Int) : roundHalfEven (n : ℚ) = n := by
  unfold roundHalfEven; simp

theorem roundHalfEven_mono {x y : ℚ} (h : x ≤ y) : roundHalfEven x ≤ roundHalfEven y := by
  rcases (Int.floor_mono h).lt_or_eq with hlt | heq
  · calc roundHalfEven x ≤ ⌊x⌋ + 1 := roundHalfEven_le_floor_succ x
      _ ≤ ⌊y⌋ := hlt
      _ ≤ roundHalfEven y := roundHalfEven_ge_floor y
  · unfold roundHalfEven
    rw [← heq]
    split_ifs <;> first | omega | (exfalso; linarith)

/-- Rounding lands between the integers that bound the argument. -/
theorem roundHalfEven_between {x : ℚ} {a b : Int} (ha : (a : ℚ) ≤ x) (hb : x ≤ b) :
    a ≤ roundHalfEven x ∧ roundHalfEven x ≤ b := by
  have h1 := roundHalfEven_mono ha
  have h2 := roundHalfEven_mono hb
  rw [roundHalfEven_intCast] at h1 h2
  exact ⟨h1, h2⟩

theorem two_zpow_pos (e : Int) : (0 : ℚ) < 2 ^ e := zpow_pos (by norm_num) e

theorem zpow_log_le {q : ℚ} (hq : 0 < q) : (2 : ℚ) ^ Int.log 2 q ≤ q := by
  have := Int.zpow_log_le_self (b := 2) (by norm_num) hq
  simpa using this

theorem lt_zpow_log_succ (q : ℚ) : q < (2 : ℚ) ^ (Int.log 2 q + 1) := by
  have := Int.lt_zpow_succ_log_self (b := 2) (by norm_num) q
  simpa using this

theorem roundFloat64_of_pos {q : ℚ} (hq : 0 < q) :
    roundFloat64 q = (roundHalfEven (q / 2 ^ (Int.log 2 q - 52)) : ℚ) * 2 ^ (Int.log 2 q - 52) := by
  unfold roundFloat64
  rw [if_neg hq.ne', if_neg (not_lt.mpr hq.le), abs_of_pos hq]

theorem roundFloat64_zero : roundFloat64 0 = 0 := by simp [roundFloat64]

theorem roundFloat64_neg (q : ℚ) : roundFloat64 (-q) = -roundFloat64 q := by
  rcases lt_trichotomy q 0 with h | h | h
  · have h' : ¬ (-q < 0) := by linarith
    have h'' : -q ≠ 0 := by linarith
    simp [roundFloat64, h, h.ne, h', h'']
  · simp [h, roundFloat64_zero]
  · have h' : ¬ (q < 0) := by linarith
    have h'' : -q < 0 := by linarith
    simp [roundFloat64, h.ne', h', h'', h''.ne]

/-- The scaled significand of a positive rational lies in `[2^52, 2^53)`. -/
theorem significand_bounds {q : ℚ} (hq : 0 < q) :
    ((2 ^ 52 : Int) : ℚ) ≤ q / 2 ^ (Int.log 2 q - 52) ∧
      q / 2 ^ (Int.log 2 q - 52) ≤ ((2 ^ 53 : Int) : ℚ) := by
  have hu := two_zpow_pos (Int.log 2 q - 52)
  have h1 := zpow_log_le hq
  have h2 := lt_zpow_log_succ q
  have e1 : (2 : ℚ) ^ Int.log 2 q = 2 ^ 52 * 2 ^ (Int.log 2 q - 52) := by
    rw [← zpow_natCast (2 : ℚ) 52, ← zpow_add₀ (by norm_num : (2 : ℚ) ≠ 0)]; congr 1; omega
  have e2 : (2 : ℚ) ^ (Int.log 2 q + 1) = 2 ^ 53 * 2 ^ (Int.log 2 q - 52) := by
    rw [← zpow_natCast (2 : ℚ) 53, ← zpow_add₀ (by norm_num : (2 : ℚ) ≠ 0)]; congr 1; omega
  constructor
  · rw [le_div_iff₀ hu]; push_cast; linarith
  · rw [div_le_iff₀ hu]; push_cast; linarith

theorem roundFloat64_bounds {q : ℚ} (hq : 0 < q) :
    (2 : ℚ) ^ Int.log 2 q ≤ roundFloat64 q ∧ roundFloat64 q ≤ 2 ^ (Int.log 2 q + 1) := by
  have hu := two_zpow_pos (Int.log 2 q - 52)
  obtain ⟨b1, b2⟩ := significand_bounds hq
  obtain ⟨r1, r2⟩ := roundHalfEven_between b1 b2
  have e1 : (2 : ℚ) ^ Int.log 2 q = 2 ^ 52 * 2 ^ (Int.log 2 q - 52) := by
    rw [← zpow_natCast (2 : ℚ) 52, ← zpow_add₀ (by norm_num : (2 : ℚ) ≠ 0)]; congr 1; omega
  have e2 : (2 : ℚ) ^ (Int.log 2 q + 1) = 2 ^ 53 * 2 ^ (Int.log 2 q - 52) := by
    rw [← zpow_natCast (2 : ℚ) 53, ← zpow_add₀ (by norm_num : (2 : ℚ) ≠ 0)]; congr 1; omega
  rw [roundFloat64_of_pos hq, e1, e2]
  have c1 : ((2 ^ 52 : Int) : ℚ) ≤ (roundHalfEven (q / 2 ^ (Int.log 2 q - 52)) : ℚ) := by
    exact_mod_cast r1
  have c2 : (roundHalfEven (q / 2 ^ (Int.log 2 q - 52)) : ℚ) ≤ ((2 ^ 53 : Int) : ℚ) := by
    exact_mod_cast r2
  push_cast at c1 c2
  constructor
  · exact mul_le_mul_of_nonneg_right c1 hu.le
  · exact mul_le_mul_of_nonneg_right c2 hu.le

theorem roundFloat64_pos {q : ℚ} (hq : 0 < q) : 0 < roundFloat64 q :=
  lt_of_lt_of_le (two_zpow_pos _) (roundFloat64_bounds hq).1

theorem roundFloat64_nonneg {q : ℚ} (hq : 0 ≤ q) : 0 ≤ roundFloat64 q := by
  rcases hq.lt_or_eq with h | h
  · exact (roundFloat64_pos h).le
  · rw [← h, roundFloat64_zero]

theorem roundFloat64_ne_zero {q : ℚ} (hq : q ≠ 0) : roundFloat64 q ≠ 0 := by
  rcases lt_or_gt_of_ne hq with h | h
  · have := roundFloat64_pos (q := -q) (by linarith)
    rw [roundFloat64_neg] at this
    linarith
  · exact (roundFloat64_pos h).ne'

theorem roundFloat64_mono_of_pos {x y : ℚ} (hx : 0 < x) (h : x ≤ y) :
    roundFloat64 x ≤ roundFloat64 y := by
  have hy : 0 < y := lt_of_lt_of_le hx h
  rcases (Int.log_mono_right (b := 2) hx h).lt_or_eq with hlt | heq
  · calc roundFloat64 x ≤ 2 ^ (Int.log 2 x + 1) := (roundFloat64_bounds hx).2
      _ ≤ 2 ^ Int.log 2 y := zpow_le_zpow_right₀ (by norm_num) hlt
      _ ≤ roundFloat64 y := (roundFloat64_bounds hy).1
  · rw [roundFloat64_of_pos hx, roundFloat64_of_pos hy, heq]
    have hu := two_zpow_pos (Int.log 2 y - 52)
    apply mul_le_mul_of_nonneg_right _ hu.le
    exact_mod_cast roundHalfEven_mono (div_le_div_of_nonneg_right h hu.le)

theorem roundFloat64_mono {x y : ℚ} (hx : 0 ≤ x) (h : x ≤ y) :
    roundFloat64 x ≤ roundFloat64 y := by
  rcases hx.lt_or_eq with h0 | h0
  · exact roundFloat64_mono_of_pos h0 h
  · rw [← h0, roundFloat64_zero]; exact roundFloat64_nonneg (h0 ▸ h)

/-- A positive rational whose scaled significand is an integer is a double. -/
theorem roundFloat64_exact {q : ℚ} (hq : 0 < q) (e : Int) (m : Int)
    (he : Int.log 2 q = e) (hm : q = (m : ℚ) * 2 ^ (e - 52)) : roundFloat64 q = q := by
  have hu := two_zpow_pos (e - 52)
  rw [roundFloat64_of_pos hq, he]
  have : q / 2 ^ (e - 52) = (m : ℚ) := by rw [hm]; field_simp
  rw [this, roundHalfEven_intCast, ← hm]

theorem log_two_eq {q : ℚ} (hq : 0 < q) (e : Int) (h1 : (2 : ℚ) ^ e ≤ q) (h2 : q < 2 ^ (e + 1)) :
    Int.log 2 q = e := by
  have a1 : e ≤ Int.log 2 q := by
    rw [← Int.zpow_le_iff_le_log (by norm_num) hq]; simpa using h1
  have a2 : Int.log 2 q < e + 1 := by
    rw [← Int.lt_zpow_iff_log_lt (by norm_num) hq]; simpa using h2
  omega

theorem roundFloat64_one : roundFloat64 1 = 1 := by
  apply roundFloat64_exact (by norm_num) 0 (2 ^ 52) (log_two_eq (by norm_num) 0 (by norm_num) (by norm_num))
  norm_num [zpow_neg]

theorem roundFloat64_ten : roundFloat64 10 = 10 := by
  apply roundFloat64_exact (by norm_num) 3 (10 * 2 ^ 49) (log_two_eq (by norm_num) 3 (by norm_num) (by norm_num))
  norm_num [zpow_neg]

/-! ## The time coordinate -/

theorem wrap64_range (n : Int) : minDuration ≤ wrap64 n ∧ wrap64 n ≤ maxDuration := by
  unfold wrap64 minDuration maxDuration; omega

theorem Round_range (d m : Int) (hd : minDuration ≤ d ∧ d ≤ maxDuration) :
    minDuration ≤ Round d m ∧ Round d m ≤ maxDuration := by
  have w := wrap64_range
  simp only [Round]
  split_ifs
  all_goals first
    | exact hd
    | exact w _
    | (unfold minDuration maxDuration; omega)

theorem calculateTimescale_range (r : Int) :
    minDuration ≤ calculateTimescale r ∧ calculateTimescale r ≤ maxDuration := by
  unfold calculateTimescale
  simp only
  split_ifs
  · unfold minDuration maxDuration Second; omega
  · exact Round_range _ _ (wrap64_range _)

theorem calculateTimescale_ne_zero (r : Int) : calculateTimescale r ≠ 0 := by
  unfold calculateTimescale
  simp only
  split_ifs with h
  · unfold Second; omega
  · intro h0
    apply h
    rw [h0]
    decide

theorem calculateTimescale_thousand : calculateTimescale 1000 = 5 * Second := by
  decide

theorem float64OfInt_ten : float64OfInt xAxisGridWidth = 10 := by
  have : ((xAxisGridWidth : Int) : ℚ) = 10 := by
    norm_num [xAxisGridWidth, xAxisLabelsGap, xAxisLabelsWidth]
  rw [float64OfInt, this, roundFloat64_ten]

theorem truncToInt_intCast (n : Int) : truncToInt (n : ℚ) = n := by
  unfold truncToInt; split_ifs <;> simp

theorem truncToInt_between {q : ℚ} (h0 : 0 ≤ q) (h1 : q ≤ 10) :
    0 ≤ truncToInt q ∧ truncToInt q ≤ 10 := by
  unfold truncToInt
  rw [if_pos h0]
  constructor
  · exact Int.floor_nonneg.mpr h0
  · have : ⌊q⌋ ≤ ⌊(10 : ℚ)⌋ := Int.floor_mono h1
    have e : ⌊(10 : ℚ)⌋ = 10 := by simp
    omega

theorem Sub_of_range {t u : Int} (h1 : minDuration ≤ t - u) (h2 : t - u ≤ maxDuration) :
    Sub t u = t - u := by
  unfold Sub; split_ifs <;> omega

/-- The scaled relation of `calculateTimeCoordinate` for a delta between zero and a positive
timescale stays between 0 and 10. -/
theorem relation_bounds (delta ts : Int) (h0 : 0 ≤ delta) (h1 : delta ≤ ts) (hts : 0 < ts) :
    0 ≤ roundFloat64 (float64OfInt xAxisGridWidth *
        roundFloat64 (float64OfInt delta / float64OfInt ts)) ∧
      roundFloat64 (float64OfInt xAxisGridWidth *
        roundFloat64 (float64OfInt delta / float64OfInt ts)) ≤ 10 := by
  have hd0 : (0 : ℚ) ≤ (delta : ℚ) := by exact_mod_cast h0
  have hdt : (delta : ℚ) ≤ (ts : ℚ) := by exact_mod_cast h1
  have ht0 : (0 : ℚ) < (ts : ℚ) := by exact_mod_cast hts
  have a0 : 0 ≤ float64OfInt delta := roundFloat64_nonneg hd0
  have b0 : 0 < float64OfInt ts := roundFloat64_pos ht0
  have ab : float64OfInt delta ≤ float64OfInt ts := roundFloat64_mono hd0 hdt
  have q0 : 0 ≤ float64OfInt delta / float64OfInt ts := div_nonneg a0 b0.le
  have q1 : float64OfInt delta / float64OfInt ts ≤ 1 := (div_le_one b0).mpr ab
  have r0 := roundFloat64_nonneg q0
  have r1 : roundFloat64 (float64OfInt delta / float64OfInt ts) ≤ 1 := by
    have := roundFloat64_mono q0 q1
    rwa [roundFloat64_one] at this
  rw [float64OfInt_ten]
  have p0 : 0 ≤ 10 * roundFloat64 (float64OfInt delta / float64OfInt ts) := by linarith
  have p1 : 10 * roundFloat64 (float64OfInt delta / float64OfInt ts) ≤ 10 := by linarith
  refine ⟨roundFloat64_nonneg p0, ?_⟩
  have := roundFloat64_mono p0 p1
  rwa [roundFloat64_ten] at this

theorem calculateTimeCoordinate_at_max (self : RunChart) :
    calculateTimeCoordinate self self.grid.timeRange.max = self.grid.maxTimeWidth := by
  unfold calculateTimeCoordinate
  have : Sub self.grid.timeRange.max self.grid.timeRange.max = 0 := by
    rw [Sub_of_range] <;> simp [minDuration, maxDuration]
  simp [this, float64OfInt, roundFloat64_zero, truncToInt]

theorem calculateTimeCoordinate_one_timescale (self : RunChart) (h0 : self.timescale ≠ 0)
    (hr : minDuration ≤ self.timescale ∧ self.timescale ≤ maxDuration) :
    calculateTimeCoordinate self (self.grid.timeRange.max - self.timescale) =
      self.grid.maxTimeWidth - xAxisGridWidth := by
  unfold calculateTimeCoordinate
  have hs : Sub self.grid.timeRange.max (self.grid.timeRange.max - self.timescale) =
      self.timescale := by
    rw [Sub_of_range] <;> omega
  have hne : float64OfInt self.timescale ≠ 0 :=
    roundFloat64_ne_zero (by exact_mod_cast h0)
  simp only [hs, div_self hne, roundFloat64_one, float64OfInt_ten, mul_one, roundFloat64_ten]
  have : truncToInt 10 = 10 := by
    have := truncToInt_intCast 10
    simpa using this
  rw [this]; rfl

/-! ## Value extrema -/

namespace Float64

theorem lt_irrefl (a : Float64) : lt a a = false := by
  cases a <;> simp [lt]

theorem lt_asymm {a b : Float64} (h : lt a b = true) : lt b a = false := by
  cases a <;> cases b <;> simp_all [lt]
  linarith

/-- With `m` not NaN, `u` not above `m` and `m` not above `v`, the value `u` is not above `v`. -/
theorem not_lt_trans {m u v : Float64} (hm : m ≠ nan) (hv : v ≠ nan) (h1 : lt m u = false)
    (h2 : lt v m = false) : lt v u = false := by
  cases m <;> cases u <;> cases v <;> simp_all [lt]
  linarith

theorem ne_nan_of_lt_left {a b : Float64} (h : lt a b = true) : a ≠ nan := by
  cases a <;> simp_all [lt]

theorem ne_nan_of_lt_right {a b : Float64} (h : lt a b = true) : b ≠ nan := by
  cases a <;> cases b <;> simp_all [lt]

end Float64

theorem foldMax_cons (m v : Float64) (vs : List Float64) :
    foldMax m (v :: vs) = foldMax (if Float64.gt v m then v else m) vs := rfl

theorem foldMin_cons (m v : Float64) (vs : List Float64) :
    foldMin m (v :: vs) = foldMin (if Float64.lt v m then v else m) vs := rfl

theorem foldMax_mem (m : Float64) (vs : List Float64) : foldMax m vs = m ∨ foldMax m vs ∈ vs := by
  induction vs generalizing m with
  | nil => exact Or.inl rfl
  | cons v vs ih =>
    rw [foldMax_cons]
    rcases ih (if Float64.gt v m then v else m) with h | h
    · rw [h]
      split_ifs
      · exact Or.inr (List.mem_cons_self _ _)
      · exact Or.inl rfl
    · exact Or.inr (List.mem_cons_of_mem _ h)

theorem foldMin_mem (m : Float64) (vs : List Float64) : foldMin m vs = m ∨ foldMin m vs ∈ vs := by
  induction vs generalizing m with
  | nil => exact Or.inl rfl
  | cons v vs ih =>
    rw [foldMin_cons]
    rcases ih (if Float64.lt v m then v else m) with h | h
    · rw [h]
      split_ifs
      · exact Or.inr (List.mem_cons_self _ _)
      · exact Or.inl rfl
    · exact Or.inr (List.mem_cons_of_mem _ h)

theorem stepMax_ne_nan {m v : Float64} (hm : m ≠ .nan) :
    (if Float64.gt v m then v else m) ≠ .nan := by
  split_ifs with h
  · exact Float64.ne_nan_of_lt_right h
  · exact hm

theorem stepMin_ne_nan {m v : Float64} (hm : m ≠ .nan) :
    (if Float64.lt v m then v else m) ≠ .nan := by
  split_ifs with h
  · exact Float64.ne_nan_of_lt_left h
  · exact hm

theorem foldMax_ne_nan (m : Float64) (vs : List Float64) (hm : m ≠ .nan) :
    foldMax m vs ≠ .nan := by
  induction vs generalizing m with
  | nil => exact hm
  | cons v vs ih => rw [foldMax_cons]; exact ih _ (stepMax_ne_nan hm)

theorem foldMin_ne_nan (m : Float64) (vs : List Float64) (hm : m ≠ .nan) :
    foldMin m vs ≠ .nan := by
  induction vs generalizing m with
  | nil => exact hm
  | cons v vs ih => rw [foldMin_cons]; exact ih _ (stepMin_ne_nan hm)

/-- The running maximum is not below its start value. -/
theorem foldMax_ge_start (m : Float64) (vs : List Float64) (hm : m ≠ .nan) :
    Float64.lt (foldMax m vs) m = false := by
  induction vs generalizing m with
  | nil => exact Float64.lt_irrefl m
  | cons v vs ih =>
    rw [foldMax_cons]
    split_ifs with h
    · have hv := Float64.ne_nan_of_lt_right h
      exact Float64.not_lt_trans hv (foldMax_ne_nan _ _ hv) (Float64.lt_asymm h) (ih v hv)
    · exact ih m hm

/-- The running minimum is not above its start value. -/
theorem foldMin_le_start (m : Float64) (vs : List Float64) (hm : m ≠ .nan) :
    Float64.lt m (foldMin m vs) = false := by
  induction vs generalizing m with
  | nil => exact Float64.lt_irrefl m
  | cons v vs ih =>
    rw [foldMin_cons]
    split_ifs with h
    · have hv := Float64.ne_nan_of_lt_left h
      have h1 := ih v hv
      have h2 := foldMin_ne_nan v vs hv
      revert h h1 h2
      generalize foldMin v vs = w
      intro h h1 h2
      cases m <;> cases v <;> cases w <;> simp_all [Float64.lt]
      linarith
    · exact ih m hm

/-- No value of the list compares greater than the running maximum. -/
theorem foldMax_upper (m : Float64) (vs : List Float64) (hm : m ≠ .nan) :
    ∀ v ∈ vs, Float64.lt (foldMax m vs) v = false := by
  induction vs generalizing m with
  | nil => intro v hv; simp at hv
  | cons u vs ih =>
    intro v hv
    rw [foldMax_cons]
    have hm' : (if Float64.gt u m then u else m) ≠ .nan := stepMax_ne_nan hm
    rcases List.mem_cons.mp hv with rfl | hv'
    · refine Float64.not_lt_trans hm' (foldMax_ne_nan _ _ hm') ?_ (foldMax_ge_start _ _ hm')
      split_ifs with h
      · exact Float64.lt_irrefl v
      · simpa [Float64.gt] using h
    · exact ih _ hm' v hv'

/-- No value of the list compares less than the running minimum. -/
theorem foldMin_lower (m : Float64) (vs : List Float64) (hm : m ≠ .nan) :
    ∀ v ∈ vs, Float64.lt v (foldMin m vs) = false := by
  induction vs generalizing m with
  | nil => intro v hv; simp at hv
  | cons u vs ih =>
    intro v hv
    rw [foldMin_cons]
    have hm' : (if Float64.lt u m then u else m) ≠ .nan := stepMin_ne_nan hm
    rcases List.mem_cons.mp hv with rfl | hv'
    · have h1 := foldMin_le_start _ vs hm'
      have h2 := foldMin_ne_nan _ vs hm'
      have h3 : Float64.lt v (if Float64.lt v m then v else m) = false := by
        split_ifs with h
        · exact Float64.lt_irrefl v
        · simpa using h
      revert h1 h2 h3 hm'
      generalize (if Float64.lt v m then v else m) = a
      generalize foldMin a vs = w
      intro hm' h1 h2 h3
      cases a <;> cases v <;> cases w <;> simp_all [Float64.lt]
      linarith
    · exact ih _ hm' v hv'

/-- With a finite value in the list, the running maximum from `-math.MaxFloat64` is a value of the
list. -/
theorem foldMax_sentinel_mem (vs : List Float64) (hvalid : ∀ v ∈ vs, v.Valid)
    (hfin : ∃ v ∈ vs, v.IsFinite) : foldMax Float64.negMaxFloat64 vs ∈ vs := by
  rcases foldMax_mem Float64.negMaxFloat64 vs with h | h
  · obtain ⟨v, hv, hf⟩ := hfin
    have hu := foldMax_upper Float64.negMaxFloat64 vs (by simp [Float64.negMaxFloat64]) v hv
    have hval := hvalid v hv
    rw [h] at hu ⊢
    cases v with
    | fin q =>
      simp only [Float64.negMaxFloat64, Float64.lt, decide_eq_false_iff_not, not_lt] at hu
      simp only [Float64.Valid] at hval
      have : q = -Float64.maxFinite := le_antisymm hu (neg_le_of_abs_le hval)
      rw [Float64.negMaxFloat64, ← this]; exact hv
    | nan => exact absurd hf (by simp [Float64.IsFinite])
    | negInf => exact absurd hf (by simp [Float64.IsFinite])
    | posInf => exact absurd hf (by simp [Float64.IsFinite])
  · exact h

/-- With a finite value in the list, the running minimum from `math.MaxFloat64` is a value of the
list. -/
theorem foldMin_sentinel_mem (vs : List Float64) (hvalid : ∀ v ∈ vs, v.Valid)
    (hfin : ∃ v ∈ vs, v.IsFinite) : foldMin Float64.MaxFloat64 vs ∈ vs := by
  rcases foldMin_mem Float64.MaxFloat64 vs with h | h
  · obtain ⟨v, hv, hf⟩ := hfin
    have hu := foldMin_lower Float64.MaxFloat64 vs (by simp [Float64.MaxFloat64]) v hv
    have hval := hvalid v hv
    rw [h] at hu ⊢
    cases v with
    | fin q =>
      simp only [Float64.MaxFloat64, Float64.lt, decide_eq_false_iff_not, not_lt] at hu
      simp only [Float64.Valid] at hval
      have : q = Float64.maxFinite := le_antisymm (le_of_abs_le hval) hu
      rw [Float64.MaxFloat64, ← this]; exact hv
    | nan => exact absurd hf (by simp [Float64.IsFinite])
    | negInf => exact absurd hf (by simp [Float64.IsFinite])
    | posInf => exact absurd hf (by simp [Float64.IsFinite])
  · exact h

/-- The loops of `getValueExtrema` compute the running maximum and minimum of the in-range
values. -/
theorem extrema_points_fold (r : timeRange) (points : List timePoint) (acc : valueExtrema) :
    points.foldl (extremaStep r) acc =
      ⟨foldMax acc.max ((points.filter (fun p => r.isInRange p.time)).map (·.value)),
        foldMin acc.min ((points.filter (fun p => r.isInRange p.time)).map (·.value))⟩ := by
  induction points generalizing acc with
  | nil => rfl
  | cons p ps ih =>
    rw [List.foldl_cons, ih]
    by_cases h : r.isInRange p.time = true
    · simp [extremaStep, List.filter_cons, h, foldMax_cons, foldMin_cons]
    · simp [extremaStep, List.filter_cons, h]

theorem extrema_lines_fold (r : timeRange) (items : List timeLine) (acc : valueExtrema) :
    items.foldl (fun acc item => item.points.foldl (extremaStep r) acc) acc =
      ⟨foldMax acc.max (inRangeValues items r), foldMin acc.min (inRangeValues items r)⟩ := by
  induction items generalizing acc with
  | nil => rfl
  | cons item rest ih =>
    rw [List.foldl_cons, ih, extrema_points_fold]
    simp [inRangeValues, foldMax, foldMin, List.foldl_append]

theorem getValueExtrema_of_ne_nil (items : List timeLine) (r : timeRange) (h : items ≠ []) :
    getValueExtrema items r =
      ⟨foldMax Float64.negMaxFloat64 (inRangeValues items r),
        foldMin Float64.MaxFloat64 (inRangeValues items r)⟩ := by
  unfold getValueExtrema
  rw [if_neg (by simpa using h), extrema_lines_fold]

theorem inRangeValues_dropOutOfRange (items : List timeLine) (r : timeRange) :
    inRangeValues (dropOutOfRange items r) r = inRangeValues items r := by
  induction items with
  | nil => rfl
  | cons item rest ih =>
    simp only [inRangeValues, dropOutOfRange, List.map_cons, List.flatMap_cons] at ih ⊢
    rw [ih]
    simp [List.filter_filter]

theorem getValueExtrema_dropOutOfRange (items : List timeLine) (r : timeRange) :
    getValueExtrema (dropOutOfRange items r) r = getValueExtrema items r := by
  by_cases h : items = []
  · subst h; rfl
  · have h' : dropOutOfRange items r ≠ [] := by simpa [dropOutOfRange] using h
    rw [getValueExtrema_of_ne_nil _ _ h, getValueExtrema_of_ne_nil _ _ h',
      inRangeValues_dropOutOfRange]

/-! ## Ingestion -/

theorem findLineIndex_absent (label : String) (lines : List timeLine) (i acc : Int)
    (h : ∀ line ∈ lines, line.label ≠ label) : findLineIndex label lines i acc = acc := by
  induction lines generalizing i acc with
  | nil => rfl
  | cons line rest ih =>
    simp only [findLineIndex]
    rw [ih _ _ (fun l hl => h l (List.mem_cons_of_mem _ hl))]
    simp [h line (List.mem_cons_self _ _)]

theorem findLineIndex_present (label : String) (lines : List timeLine) (i acc : Int)
    (h : ∃ line ∈ lines, line.label = label) :
    ∃ j : Nat, findLineIndex label lines i acc = i + j ∧
      ∃ line, lines[j]? = some line ∧ line.label = label := by
  induction lines generalizing i acc with
  | nil => simp at h
  | cons line rest ih =>
    simp only [findLineIndex]
    by_cases hr : ∃ l ∈ rest, l.label = label
    · obtain ⟨j, hj, l, hl, hlab⟩ := ih (i + 1) (if line.label = label then i else acc) hr
      refine ⟨j + 1, ?_, l, by simpa using hl, hlab⟩
      rw [hj]; push_cast; ring
    · have hr' : ∀ l ∈ rest, l.label ≠ label := fun l hl hlab => hr ⟨l, hl, hlab⟩
      rw [findLineIndex_absent _ _ _ _ hr']
      obtain ⟨l, hl, hlab⟩ := h
      have : line.label = label := by
        rcases List.mem_cons.mp hl with rfl | hl'
        · exact hlab
        · exact absurd hlab (hr' l hl')
      exact ⟨0, by simp [this], line, by simp, this⟩

/-- The lines after `ConsumeSample`: a new line with the point is appended when the label is new,
and the point is appended to a line that carries the label otherwise. -/
theorem ConsumeSample_spec (lib : GoLib) (self : RunChart) (sample : Sample) (now : Int) :
    ∃ lines, ConsumeSample lib self sample now = some { self with lines := lines } ∧
      (((∀ line ∈ self.lines, line.label ≠ sample.Label) ∧
          lines = self.lines ++
            [{ points := [newTimePoint self (lib.ParseFloat sample.Value).1 now]
               color := sample.Color, label := sample.Label }]) ∨
        (∃ (j : Nat) (line : timeLine), self.lines[j]? = some line ∧ line.label = sample.Label ∧
          lines = self.lines.set j { line with
            points := line.points ++ [newTimePoint self (lib.ParseFloat sample.Value).1 now] })) := by
  by_cases h : ∃ line ∈ self.lines, line.label = sample.Label
  · obtain ⟨j, hj, line, hline, hlab⟩ := findLineIndex_present sample.Label self.lines 0 (-1) h
    have hne : ¬ ((0 : Int) + (j : Int) = -1) := by omega
    refine ⟨_, ?_, Or.inr ⟨j, line, hline, hlab, rfl⟩⟩
    unfold ConsumeSample
    have h0 : ¬ ((0 : Int) + (j : Int) < 0) := by omega
    have h1 : ((0 : Int) + (j : Int)).toNat = j := by omega
    simp only [hj, if_neg hne, index, trimOutOfRangeValues, if_neg h0, h1, hline]
  · have h' : ∀ line ∈ self.lines, line.label ≠ sample.Label := fun l hl hlab => h ⟨l, hl, hlab⟩
    have hidx := findLineIndex_absent sample.Label self.lines 0 (-1) h'
    refine ⟨_, ?_, Or.inl ⟨h', rfl⟩⟩
    unfold ConsumeSample
    simp only [hidx, if_true, index, trimOutOfRangeValues]
    have h0 : ¬ (((self.lines ++ [({ points := [], color := sample.Color, label := sample.Label } : timeLine)]).length : Int) - 1 < 0) := by
      simp
    have h1 : (((self.lines ++ [({ points := [], color := sample.Color, label := sample.Label } : timeLine)]).length : Int) - 1).toNat = self.lines.length := by
      simp
    simp only [if_neg h0, h1]
    simp

theorem set_map_same {α β : Type} (f : α → β) (l : List α) (j : Nat) (a b : α)
    (h : l[j]? = some a) (hf : f b = f a) : (l.set j b).map f = l.map f := by
  induction l generalizing j with
  | nil => simp
  | cons x xs ih =>
    cases j with
    | zero =>
      simp only [List.getElem?_cons_zero, Option.some.injEq] at h
      simp [hf, h]
    | succ j =>
      simp only [List.getElem?_cons_succ] at h
      simp [ih j h]

/-- The labels of the lines after `ConsumeSample`. -/
theorem ConsumeSample_labels (lib : GoLib) (self : RunChart) (sample : Sample) (now : Int) :
    ∃ c, ConsumeSample lib self sample now = some c ∧
      ((sample.Label ∉ self.lines.map (·.label) ∧
          c.lines.map (·.label) = self.lines.map (·.label) ++ [sample.Label]) ∨
        (sample.Label ∈ self.lines.map (·.label) ∧
          c.lines.map (·.label) = self.lines.map (·.label))) := by
  obtain ⟨lines, hc, h⟩ := ConsumeSample_spec lib self sample now
  refine ⟨_, hc, ?_⟩
  rcases h with ⟨habs, rfl⟩ | ⟨j, line, hj, hlab, rfl⟩
  · left
    constructor
    · intro hmem
      obtain ⟨l, hl, hlab⟩ := List.mem_map.mp hmem
      exact habs l hl hlab
    · simp
  · right
    constructor
    · exact List.mem_map.mpr ⟨line, List.getElem?_mem hj, hlab⟩
    · exact set_map_same _ _ _ _ _ hj rfl

theorem ConsumeSample_linesNonempty (lib : GoLib) (self : RunChart) (sample : Sample)
    (now : Int) (h : linesNonempty self) :
    ∃ c, ConsumeSample lib self sample now = some c ∧ linesNonempty c ∧
      c.timescale = self.timescale := by
  obtain ⟨lines, hc, hl⟩ := ConsumeSample_spec lib self sample now
  refine ⟨_, hc, ?_, rfl⟩
  intro line hline
  rcases hl with ⟨_, rfl⟩ | ⟨j, l, _, _, rfl⟩
  · rcases List.mem_append.mp hline with h1 | h1
    · exact h line h1
    · simp only [List.mem_singleton] at h1
      rw [h1]; simp
  · rcases List.mem_or_eq_of_mem_set hline with h1 | h1
    · exact h line h1
    · rw [h1]; simp

theorem consumeAll_labels (lib : GoLib) (self : RunChart) (calls : List (Sample × Int))
    (hnd : (self.lines.map (·.label)).Nodup) :
    ∃ c, consumeAll lib self calls = some c ∧ (c.lines.map (·.label)).Nodup ∧
      ∀ label, label ∈ c.lines.map (·.label) ↔
        label ∈ self.lines.map (·.label) ∨ label ∈ calls.map (fun call => call.1.Label) := by
  induction calls generalizing self with
  | nil => exact ⟨self, rfl, hnd, by simp⟩
  | cons call rest ih =>
    obtain ⟨sample, now⟩ := call
    obtain ⟨c1, h1, hl⟩ := ConsumeSample_labels lib self sample now
    have hnd1 : (c1.lines.map (·.label)).Nodup := by
      rcases hl with ⟨habs, heq⟩ | ⟨_, heq⟩
      · rw [heq]
        exact List.Nodup.append hnd (List.nodup_singleton _) (by simpa using habs)
      · rw [heq]; exact hnd
    obtain ⟨c, hc, hnd2, hmem⟩ := ih c1 hnd1
    refine ⟨c, by simp [consumeAll, h1, hc], hnd2, ?_⟩
    intro label
    rw [hmem label]
    rcases hl with ⟨_, heq⟩ | ⟨hin, heq⟩
    · rw [heq]; simp only [List.mem_append, List.mem_singleton, List.map_cons, List.mem_cons]
      tauto
    · rw [heq]; simp only [List.map_cons, List.mem_cons]
      constructor
      · tauto
      · rintro (h | h | h)
        · exact Or.inl h
        · exact Or.inl (h ▸ hin)
        · exact Or.inr h

/-- Samples that all carry the label of the only line are appended to that line. -/
theorem consumeAll_one_label (lib : GoLib) (color : Nat) (label value : String)
    (times : List Int) (self : RunChart) (line : timeLine)
    (hlines : self.lines = [line]) (hlabel : line.label = label) :
    ∃ c line1, consumeAll lib self (times.map (fun t => (⟨label, value, color⟩, t))) = some c ∧
      c.lines = [line1] ∧ line1.label = label ∧
      line1.points.length = line.points.length + times.length := by
  induction times generalizing self line with
  | nil => exact ⟨self, line, rfl, hlines, hlabel, rfl⟩
  | cons t rest ih =>
    obtain ⟨lines, hc, hl⟩ := ConsumeSample_spec lib self ⟨label, value, color⟩ t
    rcases hl with ⟨habs, _⟩ | ⟨j, l, hj, _, hset⟩
    · exact absurd hlabel (habs line (by simp [hlines]))
    · rw [hlines] at hj hset
      cases j with
      | zero =>
        simp only [List.getElem?_cons_zero, Option.some.injEq] at hj
        subst hj
        simp only [List.set_cons_zero] at hset
        obtain ⟨c, line1, h1, h2, h3, h4⟩ := ih { self with lines := lines } _ hset hlabel
        refine ⟨c, line1, by simp [consumeAll, hc, h1], h2, h3, ?_⟩
        rw [h4]; simp; omega
      | succ j => simp at hj

/-! ## The loops of the render pass -/

theorem scanLine_append (lib : GoLib) (grid : chartGrid) (drawArea : Rectangle) (delta : Int)
    (points : List timePoint) (p : timePoint) :
    scanLine lib grid drawArea delta (points ++ [p]) =
      scanPoint lib grid drawArea delta (scanLine lib grid drawArea delta points) p := by
  simp [scanLine, List.foldl_append]

theorem scanLine_inv (lib : GoLib) (grid : chartGrid) (drawArea : Rectangle) (delta : Int)
    (points : List timePoint) :
    ScanInv lib grid drawArea delta points (scanLine lib grid drawArea delta points) := by
  induction points using List.reverseRecOn with
  | nil =>
    exact ⟨rfl, rfl, List.nodup_nil, by simp [scanLine], by simp [scanLine]⟩
  | append_singleton points p ih =>
    rw [scanLine_append]
    generalize scanLine lib grid drawArea delta points = st at ih
    obtain ⟨h1, h2, h3, h4, h5⟩ := ih
    by_cases hex : (st.xToPoint.lookup (pointCell lib grid drawArea delta p).X).isSome = true
    · have hst : scanPoint lib grid drawArea delta st p =
          { st with points := st.points ++
            [{ p with timeCoordinate := p.timeCoordinate - delta }] } := by
        simp only [scanPoint, hex, if_true]
      rw [hst]
      refine ⟨by simp [h1, correctPoints], h2, h3, h4, ?_⟩
      intro x
      simp only [List.map_append, List.map_cons, List.map_nil, List.filter_append,
        List.find?_append, ← h5 x]
      by_cases hx : (pointCell lib grid drawArea delta p).X = x
      · subst hx
        obtain ⟨v, hv⟩ := Option.isSome_iff_exists.mp hex
        simp [hv]
      · cases hlk : List.lookup x st.xToPoint with
        | some v => simp
        | none =>
          by_cases hin : (pointCell lib grid drawArea delta p).In drawArea = true
          · simp [List.filter_cons, hin, hx]
          · simp [List.filter_cons, hin]
    · by_cases hin : (pointCell lib grid drawArea delta p).In drawArea = true
      · have hst : scanPoint lib grid drawArea delta st p =
            { points := st.points ++ [{ p with timeCoordinate := p.timeCoordinate - delta }]
              xToPoint := st.xToPoint ++
                [((pointCell lib grid drawArea delta p).X, pointCell lib grid drawArea delta p)]
              pointsOrder := st.pointsOrder ++ [(pointCell lib grid drawArea delta p).X] } := by
          simp only [scanPoint, hex, hin]
          simp
        rw [hst]
        have hnone : st.xToPoint.lookup (pointCell lib grid drawArea delta p).X = none :=
          Option.not_isSome_iff_eq_none.mp hex
        refine ⟨by simp [h1, correctPoints], by simp [h2], ?_, ?_, ?_⟩
        · simp only [List.map_append, List.map_cons, List.map_nil]
          refine List.Nodup.append h3 (List.nodup_singleton _) ?_
          simp only [List.disjoint_singleton]
          intro hmem
          obtain ⟨e, he, hk⟩ := List.mem_map.mp hmem
          have := (List.lookup_eq_none_iff.mp hnone) e he
          simp [hk] at this
        · intro e he
          rcases List.mem_append.mp he with h | h
          · exact h4 e h
          · simp only [List.mem_singleton] at h
            subst h
            exact ⟨rfl, hin⟩
        · intro x
          simp only [List.map_append, List.map_cons, List.map_nil, List.filter_append,
            List.find?_append, List.lookup_append, ← h5 x]
          congr 1
          by_cases hx : (pointCell lib grid drawArea delta p).X = x
          · simp [List.filter_cons, hin, hx, List.lookup_cons]
          · have hx' : (x == (pointCell lib grid drawArea delta p).X) = false := by
              simpa using fun h => hx h.symm
            simp [List.filter_cons, hin, hx, hx', List.lookup_cons]
      · have hst : scanPoint lib grid drawArea delta st p =
            { st with points := st.points ++
              [{ p with timeCoordinate := p.timeCoordinate - delta }] } := by
          simp only [scanPoint, hex, hin]
          simp
        rw [hst]
        refine ⟨by simp [h1, correctPoints], h2, h3, h4, ?_⟩
        intro x
        simp [List.filter_append, List.filter_cons, hin, ← h5 x]

/-- The second inner loop of `renderLines` never reads `pointsOrder` out of range. -/
theorem drawSegments_isSome (xToPoint : List (Int × Point)) (pointsOrder : List Int) (color : Nat)
    (rest : List Int) (i : Nat) (h : i + rest.length ≤ pointsOrder.length) :
    ∃ segments, drawSegments xToPoint pointsOrder color rest i = some segments ∧
      segments.map (·.currentPoint) = rest.map (mapGet xToPoint) := by
  induction rest generalizing i with
  | nil => exact ⟨[], rfl, rfl⟩
  | cons x rest ih =>
    simp only [List.length_cons] at h
    obtain ⟨segments, hs, hmap⟩ := ih (i + 1) (by omega)
    have hs' : drawSegments xToPoint pointsOrder color rest ((i : Int) + 1) = some segments := by
      exact_mod_cast hs
    by_cases hi : (i : Int) = 0
    · rw [hi] at hs'
      refine ⟨⟨mapGet xToPoint x, mapGet xToPoint x, color⟩ :: segments, ?_, by simp [hmap]⟩
      simp only [drawSegments, hi, if_true, hs']
    · have hlt : ((i : Int) - 1).toNat < pointsOrder.length := by omega
      have hnn : ¬ ((i : Int) - 1 < 0) := by omega
      obtain ⟨y, hy⟩ : ∃ y, pointsOrder[((i : Int) - 1).toNat]? = some y :=
        ⟨_, List.getElem?_eq_getElem hlt⟩
      refine ⟨⟨mapGet xToPoint y, mapGet xToPoint x, color⟩ :: segments, ?_, by simp [hmap]⟩
      simp only [drawSegments, hi, if_false, index, hnn, hy, Option.map_some', hs']

theorem lookup_of_mem_nodup (l : List (Int × Point)) (h : (l.map Prod.fst).Nodup) :
    ∀ e ∈ l, l.lookup e.1 = some e.2 := by
  induction l with
  | nil => intro e he; simp at he
  | cons a rest ih =>
    intro e he
    obtain ⟨k, v⟩ := a
    simp only [List.map_cons, List.nodup_cons] at h
    rcases List.mem_cons.mp he with rfl | he'
    · simp [List.lookup_cons]
    · have hne : (e.1 == k) = false := by
        simp only [beq_eq_false_iff_ne, ne_eq]
        rintro rfl
        exact h.1 (List.mem_map.mpr ⟨e, he', rfl⟩)
      simp only [List.lookup_cons, hne]
      exact ih h.2 e he'

/-- Reading the map at its keys, in the order of insertion, gives its values. -/
theorem map_mapGet_keys (l : List (Int × Point)) (h : (l.map Prod.fst).Nodup) :
    (l.map Prod.fst).map (mapGet l) = l.map Prod.snd := by
  rw [List.map_map]
  apply List.map_congr_left
  intro e he
  simp [mapGet, lookup_of_mem_nodup l h e he]

/-- The points of a line after the correction of the time coordinates in `renderLines`. -/
theorem renderLine_spec (lib : GoLib) (grid : chartGrid) (drawArea : Rectangle) (delta : Int)
    (line : timeLine) :
    ∃ segments, renderLine lib grid drawArea delta line =
      some ({ line with points := correctPoints delta line.points }, segments) := by
  have inv := scanLine_inv lib grid drawArea delta line.points
  obtain ⟨segments, hs, _⟩ := drawSegments_isSome
    (scanLine lib grid drawArea delta line.points).xToPoint
    (scanLine lib grid drawArea delta line.points).pointsOrder line.color
    (scanLine lib grid drawArea delta line.points).pointsOrder 0 (by omega)
  refine ⟨segments, ?_⟩
  unfold renderLine
  have hs' : drawSegments (scanLine lib grid drawArea delta line.points).xToPoint
      (scanLine lib grid drawArea delta line.points).pointsOrder line.color
      (scanLine lib grid drawArea delta line.points).pointsOrder 0 = some segments := by
    exact_mod_cast hs
  simp only [hs', Option.map_some', inv.points_eq]

theorem renderLine_mapM (lib : GoLib) (grid : chartGrid) (drawArea : Rectangle) (delta : Int)
    (lines : List timeLine) :
    ∃ rendered, lines.mapM (renderLine lib grid drawArea delta) = some rendered ∧
      rendered.map Prod.fst = lines.map (fun line => { line with points := correctPoints delta line.points }) := by
  induction lines with
  | nil => exact ⟨[], rfl, rfl⟩
  | cons line rest ih =>
    obtain ⟨rendered, hr, hm⟩ := ih
    obtain ⟨segments, hs⟩ := renderLine_spec lib grid drawArea delta line
    refine ⟨({ line with points := correctPoints delta line.points }, segments) :: rendered,
      ?_, by simp [hm]⟩
    rw [List.mapM_cons, hs, hr]; rfl

/-- The method `renderLines` never reads a slice out of range; it leaves the lines as they are
or corrects the time coordinates of their points. -/
theorem renderLines_spec (lib : GoLib) (self : RunChart) (drawArea : Rectangle) :
    ∃ c segments, renderLines lib self drawArea = some (c, segments) ∧
      ∃ delta : Int, c.lines = self.lines.map (fun line => { line with points := correctPoints delta line.points }) := by
  unfold renderLines
  cases hl : self.lines with
  | nil => exact ⟨self, [], by simp, 0, by simp [hl]⟩
  | cons first rest =>
    simp only [List.length_cons, Nat.add_one_ne_zero, if_false, index]
    simp only [lt_self_iff_false, if_false, Int.toNat_zero, List.getElem?_cons_zero]
    cases hp : first.points with
    | nil =>
      refine ⟨self, [], by simp, 0, ?_⟩
      have : ∀ line : timeLine,
          ({ line with points := correctPoints 0 line.points } : timeLine) = line := by
        intro line; simp [correctPoints]
      simp [hl, this]
    | cons probe points =>
      simp only [List.length_cons, Nat.add_one_ne_zero, if_false, List.getElem?_cons_zero]
      obtain ⟨rendered, hr, hm⟩ := renderLine_mapM lib self.grid drawArea
        |calculateTimeCoordinate self probe.time - probe.timeCoordinate| (first :: rest)
      refine ⟨_, _, by rw [hr]; rfl, _, hm⟩

theorem legendEntry_isSome (lib : GoLib) (self : RunChart) (line : timeLine)
    (h : line.points ≠ []) : ∃ entry, legendEntry lib self line = some entry := by
  unfold legendEntry
  have hpos : 0 < line.points.length := List.length_pos.mpr h
  have hnn : ¬ ((line.points.length : Int) - 1 < 0) := by omega
  have hlt : ((line.points.length : Int) - 1).toNat < line.points.length := by omega
  simp only [index, hnn, if_false, List.getElem?_eq_getElem hlt]
  exact ⟨_, rfl⟩

theorem renderLegend_isSome (lib : GoLib) (self : RunChart) (lines : List timeLine)
    (h : ∀ line ∈ lines, line.points ≠ []) :
    ∃ legend, lines.mapM (legendEntry lib self) = some legend := by
  induction lines with
  | nil => exact ⟨[], rfl⟩
  | cons line rest ih =>
    obtain ⟨legend, hr⟩ := ih (fun l hl => h l (List.mem_cons_of_mem _ hl))
    obtain ⟨entry, he⟩ := legendEntry_isSome lib self line (h line (List.mem_cons_self _ _))
    exact ⟨entry :: legend, by rw [List.mapM_cons, he, hr]; rfl⟩

/-- A render pass on a chart whose lines all hold a point completes and keeps that property. -/
theorem Draw_spec (lib : GoLib) (self : RunChart) (now : Int) (h : linesNonempty self) :
    ∃ c frame, Draw lib self now = some (c, frame) ∧ linesNonempty c := by
  unfold Draw
  simp only
  obtain ⟨c, segments, hr, delta, hlines⟩ := renderLines_spec lib
    { self with grid := newChartGrid lib self now }
    (Rect (self.Inner.Min.X + (newChartGrid lib self now).minTimeWidth + 1) self.Inner.Min.Y
      self.Inner.Max.X (self.Inner.Max.Y - xAxisLabelsHeight - 1))
  have hc : linesNonempty c := by
    intro line hline
    rw [hlines] at hline
    obtain ⟨l, hl, rfl⟩ := List.mem_map.mp hline
    simpa [correctPoints] using h l hl
  obtain ⟨legend, hleg⟩ := renderLegend_isSome lib c c.lines hc
  refine ⟨c, ⟨segments, legend⟩, ?_, hc⟩
  rw [hr]
  simp only [renderLegend, hleg]

theorem step_spec (lib : GoLib) (self : RunChart) (call : Call) (h : linesNonempty self) :
    ∃ c, step lib self call = some c ∧ linesNonempty c := by
  cases call with
  | consume sample now =>
    obtain ⟨c, hc, hn, _⟩ := ConsumeSample_linesNonempty lib self sample now h
    exact ⟨c, hc, hn⟩
  | draw inner now =>
    obtain ⟨c, frame, hd, hn⟩ := Draw_spec lib { self with Inner := inner } now h
    exact ⟨c, by simp [step, hd], hn⟩

theorem run_spec (lib : GoLib) (self : RunChart) (calls : List Call) (h : linesNonempty self) :
    ∃ c, run lib self calls = some c ∧ linesNonempty c := by
  induction calls generalizing self with
  | nil => exact ⟨self, rfl, h⟩
  | cons call rest ih =>
    obtain ⟨c1, h1, hn1⟩ := step_spec lib self call h
    obtain ⟨c, hc, hn⟩ := ih c1 hn1
    exact ⟨c, by simp [run, h1, hc], hn⟩

/-! ## Properties of the chart -/

/-- C1: after any finite sequence of calls of `ConsumeSample` on a new chart, every call has
returned, no label is carried by two lines, and the labels of the lines are exactly the labels
of the samples. -/
theorem consumeAll_labels_bijective (lib : GoLib) (precision refreshRateMs : Int)
    (calls : List (Sample × Int)) :
    ∃ c, consumeAll lib (NewRunChart precision refreshRateMs) calls = some c ∧
      (c.lines.map (·.label)).Nodup ∧
      ∀ label, label ∈ c.lines.map (·.label) ↔ label ∈ calls.map (fun call => call.1.Label) := by
  obtain ⟨c, hc, hnd, hmem⟩ :=
    consumeAll_labels lib (NewRunChart precision refreshRateMs) calls (by simp [NewRunChart])
  exact ⟨c, hc, hnd, fun label => by simpa [NewRunChart] using hmem label⟩

/-- C2 (evaluation at the failing inputs): whatever the configuration and the inner rectangle
of the chart, after `n + 1` samples labelled a (at any instants) the chart has one line, which
stores `n + 1` points: the stored point count grows with every sample and no bound holds. -/
theorem consumeAll_points_unbounded (lib : GoLib) (precision refreshRateMs : Int)
    (inner : Rectangle) (now : Int) (times : List Int) :
    ∃ c line,
      consumeAll lib { NewRunChart precision refreshRateMs with Inner := inner }
        ((now :: times).map (fun t => (⟨"a", "1.0", 0⟩, t))) = some c ∧
      c.lines = [line] ∧ line.points.length = times.length + 1 := by
  obtain ⟨lines, hc, hl⟩ := ConsumeSample_spec lib
    { NewRunChart precision refreshRateMs with Inner := inner } ⟨"a", "1.0", 0⟩ now
  rcases hl with ⟨_, hlines⟩ | ⟨j, l, hj, _, _⟩
  · obtain ⟨c, line, h1, h2, _, h4⟩ := consumeAll_one_label lib 0 "a" "1.0" times
      { NewRunChart precision refreshRateMs with Inner := inner, lines := lines } _
      (by simpa [NewRunChart] using hlines) rfl
    refine ⟨c, line, ?_, h2, by rw [h4]; simp; omega⟩
    simp only [List.map_cons, consumeAll]
    rw [hc]
    exact h1
  · simp [NewRunChart] at hj

/-- C3 (evaluation at the failing input): on a new chart the sample with label b and value
"N/A" creates the line b with one point, whose value is the float that `ParseFloat` returns
together with its error (0 in Go); the following sample with label b and value "5.0" appends a
point with the float returned for "5.0" to the same line. -/
theorem ConsumeSample_unparseable (lib : GoLib) (precision refreshRateMs : Int) (color : Nat)
    (now later : Int) :
    (∃ c, ConsumeSample lib (NewRunChart precision refreshRateMs) ⟨"b", "N/A", color⟩ now =
          some c ∧
        c.lines.map (fun line => (line.label, line.points.map (·.value))) =
          [("b", [(lib.ParseFloat "N/A").1])]) ∧
      ∃ c, consumeAll lib (NewRunChart precision refreshRateMs)
          [(⟨"b", "N/A", color⟩, now), (⟨"b", "5.0", color⟩, later)] = some c ∧
        c.lines.map (fun line => (line.label, line.points.map (·.value))) =
          [("b", [(lib.ParseFloat "N/A").1, (lib.ParseFloat "5.0").1])] := by
  refine ⟨⟨_, rfl, ?_⟩, ⟨_, rfl, ?_⟩⟩
  · simp [NewRunChart, trimOutOfRangeValues, newTimePoint, findLineIndex]
  · simp [NewRunChart, trimOutOfRangeValues, newTimePoint, findLineIndex, index]

/-- C4 (evaluation at the failing input): for one line whose only point is older than the time
range, `getValueExtrema` returns `(-math.MaxFloat64, math.MaxFloat64)`: no stored point lies
inside the range, yet the result is not `(0, 0)` and its max is below its min. -/
theorem getValueExtrema_stale_point :
    inRangeValues [⟨[⟨.fin 1, 5, 0⟩], 0, "a"⟩] ⟨20, 10⟩ = [] ∧
      getValueExtrema [⟨[⟨.fin 1, 5, 0⟩], 0, "a"⟩] ⟨20, 10⟩ =
        ⟨Float64.negMaxFloat64, Float64.MaxFloat64⟩ ∧
      getValueExtrema [⟨[⟨.fin 1, 5, 0⟩], 0, "a"⟩] ⟨20, 10⟩ ≠ ⟨.fin 0, .fin 0⟩ ∧
      Float64.lt (getValueExtrema [⟨[⟨.fin 1, 5, 0⟩], 0, "a"⟩] ⟨20, 10⟩).max
        (getValueExtrema [⟨[⟨.fin 1, 5, 0⟩], 0, "a"⟩] ⟨20, 10⟩).min = true := by
  have h : getValueExtrema [⟨[⟨.fin 1, 5, 0⟩], 0, "a"⟩] ⟨20, 10⟩ =
      ⟨Float64.negMaxFloat64, Float64.MaxFloat64⟩ := by
    simp [getValueExtrema, extremaStep, timeRange.isInRange]
  refine ⟨by simp [inRangeValues, timeRange.isInRange], h, ?_, ?_⟩
  · rw [h]; norm_num [Float64.negMaxFloat64, Float64.maxFinite]
  · rw [h]; norm_num [Float64.negMaxFloat64, Float64.MaxFloat64, Float64.lt, Float64.maxFinite]

/-- C5 (counterexample): a point with value NaN, or with value minus infinity, strictly inside
the time range is the only stored point, and the max returned by `getValueExtrema` is
`-math.MaxFloat64`, which is not the value of any in-range point. -/
theorem getValueExtrema_not_greatest :
    (inRangeValues [⟨[⟨.nan, 15, 0⟩], 0, "a"⟩] ⟨20, 10⟩ = [.nan] ∧
      (getValueExtrema [⟨[⟨.nan, 15, 0⟩], 0, "a"⟩] ⟨20, 10⟩).max = Float64.negMaxFloat64 ∧
      (getValueExtrema [⟨[⟨.nan, 15, 0⟩], 0, "a"⟩] ⟨20, 10⟩).max ∉
        inRangeValues [⟨[⟨.nan, 15, 0⟩], 0, "a"⟩] ⟨20, 10⟩) ∧
    (inRangeValues [⟨[⟨.negInf, 15, 0⟩], 0, "a"⟩] ⟨20, 10⟩ = [.negInf] ∧
      (getValueExtrema [⟨[⟨.negInf, 15, 0⟩], 0, "a"⟩] ⟨20, 10⟩).max = Float64.negMaxFloat64 ∧
      (getValueExtrema [⟨[⟨.negInf, 15, 0⟩], 0, "a"⟩] ⟨20, 10⟩).max ∉
        inRangeValues [⟨[⟨.negInf, 15, 0⟩], 0, "a"⟩] ⟨20, 10⟩) := by
  have h1 : inRangeValues [⟨[⟨.nan, 15, 0⟩], 0, "a"⟩] ⟨20, 10⟩ = [.nan] := by
    simp [inRangeValues, timeRange.isInRange]
  have h2 : (getValueExtrema [⟨[⟨.nan, 15, 0⟩], 0, "a"⟩] ⟨20, 10⟩).max =
      Float64.negMaxFloat64 := by
    simp [getValueExtrema, extremaStep, timeRange.isInRange, Float64.gt, Float64.lt,
      Float64.negMaxFloat64]
  have h3 : inRangeValues [⟨[⟨.negInf, 15, 0⟩], 0, "a"⟩] ⟨20, 10⟩ = [.negInf] := by
    simp [inRangeValues, timeRange.isInRange]
  have h4 : (getValueExtrema [⟨[⟨.negInf, 15, 0⟩], 0, "a"⟩] ⟨20, 10⟩).max =
      Float64.negMaxFloat64 := by
    simp [getValueExtrema, extremaStep, timeRange.isInRange, Float64.gt, Float64.lt,
      Float64.negMaxFloat64]
  refine ⟨⟨h1, h2, ?_⟩, h3, h4, ?_⟩
  · rw [h1, h2]; simp [Float64.negMaxFloat64]
  · rw [h3, h4]; simp [Float64.negMaxFloat64]

/-- C5 (amended): when at least one point strictly inside the time range has a finite value,
the max returned by `getValueExtrema` is the value of an in-range point and no in-range value
compares greater, the min is the value of an in-range point and no in-range value compares less,
and the result is unchanged when the points at or outside the bounds of the range are removed. -/
theorem getValueExtrema_in_range (items : List timeLine) (r : timeRange)
    (hvalid : ∀ v ∈ inRangeValues items r, v.Valid)
    (hfin : ∃ v ∈ inRangeValues items r, v.IsFinite) :
    (getValueExtrema items r).max ∈ inRangeValues items r ∧
      (∀ v ∈ inRangeValues items r, Float64.gt v (getValueExtrema items r).max = false) ∧
      (getValueExtrema items r).min ∈ inRangeValues items r ∧
      (∀ v ∈ inRangeValues items r, Float64.lt v (getValueExtrema items r).min = false) ∧
      getValueExtrema (dropOutOfRange items r) r = getValueExtrema items r := by
  have hne : items ≠ [] := by
    rintro rfl
    obtain ⟨v, hv, _⟩ := hfin
    simp [inRangeValues] at hv
  rw [getValueExtrema_of_ne_nil items r hne]
  refine ⟨foldMax_sentinel_mem _ hvalid hfin, ?_, foldMin_sentinel_mem _ hvalid hfin, ?_, ?_⟩
  · intro v hv
    exact foldMax_upper _ _ (by simp [Float64.negMaxFloat64]) v hv
  · intro v hv
    exact foldMin_lower _ _ (by simp [Float64.MaxFloat64]) v hv
  · rw [← getValueExtrema_of_ne_nil items r hne]
    exact getValueExtrema_dropOutOfRange items r

/-- C5 (witness): the points 1.0, 3.0, 2.0 of one line inside the window give max 3.0 and
min 1.0. -/
theorem getValueExtrema_in_range_witness :
    getValueExtrema [⟨[⟨.fin 1, 11, 0⟩, ⟨.fin 3, 12, 0⟩, ⟨.fin 2, 13, 0⟩], 0, "a"⟩] ⟨20, 10⟩ =
        ⟨.fin 3, .fin 1⟩ ∧
      (getValueExtrema [⟨[⟨.fin 1, 11, 0⟩, ⟨.fin 3, 12, 0⟩, ⟨.fin 2, 13, 0⟩], 0, "a"⟩]
          ⟨20, 10⟩).max ∈
        inRangeValues [⟨[⟨.fin 1, 11, 0⟩, ⟨.fin 3, 12, 0⟩, ⟨.fin 2, 13, 0⟩], 0, "a"⟩] ⟨20, 10⟩ := by
  have hv : inRangeValues [⟨[⟨.fin 1, 11, 0⟩, ⟨.fin 3, 12, 0⟩, ⟨.fin 2, 13, 0⟩], 0, "a"⟩]
      ⟨20, 10⟩ = [.fin 1, .fin 3, .fin 2] := by
    simp [inRangeValues, timeRange.isInRange]
  have hm : (0 : ℚ) ≤ Float64.maxFinite - 3 := by norm_num [Float64.maxFinite]
  refine ⟨?_, (getValueExtrema_in_range _ _ ?_ ?_).1⟩
  · simp [getValueExtrema, extremaStep, timeRange.isInRange, Float64.gt, Float64.lt,
      Float64.negMaxFloat64, Float64.MaxFloat64, Float64.maxFinite]
    norm_num
  · rw [hv]
    intro v h
    simp only [List.mem_cons, List.mem_singleton, List.not_mem_nil, or_false] at h
    rcases h with rfl | rfl | rfl <;> simp only [Float64.Valid] <;> rw [abs_le] <;>
      constructor <;> linarith
  · rw [hv]
    exact ⟨.fin 1, by simp, trivial⟩

/-- C6 (counterexample): two points of a line lie in column 5, the first in row 5 and the last
in row 1; the one segment that `renderLines` draws is at the cell of the first point. -/
theorem renderLines_keeps_first_point :
    pointCell exactLib twoPointChart.grid (Rect 0 0 10 6) 0 ⟨.fin 0, 100, 5⟩ = ⟨5, 5⟩ ∧
      pointCell exactLib twoPointChart.grid (Rect 0 0 10 6) 0 ⟨.fin 4, 100, 5⟩ = ⟨5, 1⟩ ∧
      (renderLines exactLib twoPointChart (Rect 0 0 10 6)).map Prod.snd =
        some [[⟨⟨5, 5⟩, ⟨5, 5⟩, 0⟩]] := by
  have hne : Float64.eq (Float64.fin 4) (Float64.fin 0) = false := by
    simp [Float64.eq]
  have h1 : pointCell exactLib twoPointChart.grid (Rect 0 0 10 6) 0 ⟨.fin 0, 100, 5⟩ =
      ⟨5, 5⟩ := by
    simp [pointCell, pointY, twoPointChart, hne, exactLib, exactScaleY, Rect, Rectangle.Dy,
      truncToInt]
  have h2 : pointCell exactLib twoPointChart.grid (Rect 0 0 10 6) 0 ⟨.fin 4, 100, 5⟩ =
      ⟨5, 1⟩ := by
    simp [pointCell, pointY, twoPointChart, hne, exactLib, exactScaleY, Rect, Rectangle.Dy,
      truncToInt]
  have hd : calculateTimeCoordinate twoPointChart 100 = 5 :=
    calculateTimeCoordinate_at_max twoPointChart
  refine ⟨h1, h2, ?_⟩
  have hlines : twoPointChart.lines = [⟨[⟨.fin 0, 100, 5⟩, ⟨.fin 4, 100, 5⟩], 0, "a"⟩] := rfl
  have hin : (⟨5, 5⟩ : Point).In (Rect 0 0 10 6) = true := by decide
  have hline : renderLine exactLib twoPointChart.grid (Rect 0 0 10 6) 0
      ⟨[⟨.fin 0, 100, 5⟩, ⟨.fin 4, 100, 5⟩], 0, "a"⟩ =
      some (⟨[⟨.fin 0, 100, 5⟩, ⟨.fin 4, 100, 5⟩], 0, "a"⟩, [⟨⟨5, 5⟩, ⟨5, 5⟩, 0⟩]) := by
    simp [renderLine, scanLine, scanPoint, h1, h2, hin, drawSegments, mapGet, index,
      List.lookup_cons]
  unfold renderLines
  simp only [hlines, index, List.length_cons, List.length_nil, Nat.zero_add, Nat.add_one_ne_zero,
    if_false, lt_self_iff_false, Int.toNat_zero, List.getElem?_cons_zero, hd, sub_self, abs_zero]
  rw [List.mapM_cons, List.mapM_nil, hline]
  rfl

/-- C6 (amended): in `renderLines`, for every line and every draw area, the surviving points
(the entries of `xToPoint`) have pairwise distinct columns, every surviving point lies inside the
draw area, the point that survives in a column is the first point of the line, in arrival order,
whose cell is in that column and inside the draw area, and the segments drawn for the line end
at the surviving points, one after the other. -/
theorem scanLine_keeps_first (lib : GoLib) (grid : chartGrid) (drawArea : Rectangle)
    (delta : Int) (line : timeLine) :
    ((scanLine lib grid drawArea delta line.points).xToPoint.map Prod.fst).Nodup ∧
      (∀ e ∈ (scanLine lib grid drawArea delta line.points).xToPoint,
        e.2.X = e.1 ∧ e.2.In drawArea = true) ∧
      (∀ x, (scanLine lib grid drawArea delta line.points).xToPoint.lookup x =
        ((line.points.map (pointCell lib grid drawArea delta)).filter
          (fun c => c.In drawArea)).find? (fun c => c.X == x)) ∧
      ∃ segments,
        renderLine lib grid drawArea delta line =
          some ({ line with points := correctPoints delta line.points }, segments) ∧
        segments.map (·.currentPoint) =
          (scanLine lib grid drawArea delta line.points).xToPoint.map Prod.snd := by
  have inv := scanLine_inv lib grid drawArea delta line.points
  refine ⟨inv.nodup, inv.inside, inv.first, ?_⟩
  obtain ⟨segments, hs, hcur⟩ := drawSegments_isSome
    (scanLine lib grid drawArea delta line.points).xToPoint
    (scanLine lib grid drawArea delta line.points).pointsOrder line.color
    (scanLine lib grid drawArea delta line.points).pointsOrder 0 (by omega)
  have hs0 : drawSegments (scanLine lib grid drawArea delta line.points).xToPoint
      (scanLine lib grid drawArea delta line.points).pointsOrder line.color
      (scanLine lib grid drawArea delta line.points).pointsOrder 0 = some segments := by
    exact_mod_cast hs
  refine ⟨segments, ?_, ?_⟩
  · unfold renderLine
    simp only [hs0, Option.map_some', inv.points_eq]
  · rw [hcur, inv.order_eq]
    exact map_mapGet_keys _ inv.nodup

/-- C7 (counterexample): for the refresh interval -1000 ms the timescale is minus five seconds,
and for 1844674407371 ms (the millisecond product leaves the 64-bit range) it is the smallest
duration; both are below one second. -/
theorem calculateTimescale_below_second :
    calculateTimescale (-1000) = -5 * Second ∧ ¬ Second ≤ calculateTimescale (-1000) ∧
      calculateTimescale 1844674407371 = minDuration ∧
      ¬ Second ≤ calculateTimescale 1844674407371 := by
  decide

/-- C7 (amended): for refresh intervals `0 ≤ a ≤ b ≤ 1844674407370` (in ms), the timescale of `a`
is at least one second and at most the timescale of `b`; the timescale of `a` is `5 * a`
milliseconds rounded to the nearest second (halves up, capped at the largest duration), replaced
by one second when that is zero. -/
theorem calculateTimescale_monotone (a b : Int) (h0 : 0 ≤ a) (hab : a ≤ b)
    (hb : b ≤ 1844674407370) :
    Second ≤ calculateTimescale a ∧ calculateTimescale a ≤ calculateTimescale b ∧
      calculateTimescale a = max Second (min maxDuration ((a + 100) / 200 * Second)) := by
  rw [calculateTimescale_closed a h0 (by omega), calculateTimescale_closed b (by omega) hb]
  unfold Second maxDuration
  omega

/-- C7 (witness): refresh intervals of 100 ms and 1000 ms. -/
theorem calculateTimescale_monotone_witness :
    Second ≤ calculateTimescale 100 ∧ calculateTimescale 100 ≤ calculateTimescale 1000 ∧
      calculateTimescale 100 = max Second (min maxDuration ((100 + 100) / 200 * Second)) :=
  calculateTimescale_monotone 100 1000 (by decide) (by decide) (by decide)

/-- C8: after any sequence of calls of `ConsumeSample` and render passes on a new chart, every
call has returned without an index out of range, every stored line holds at least one point,
and for every inner rectangle, draw area and instant the next render pass, `renderLines` and
`renderLegend` return without an index out of range. -/
theorem render_in_bounds (lib : GoLib) (precision refreshRateMs : Int) (calls : List Call)
    (inner drawArea : Rectangle) (now : Int) :
    ∃ c, run lib (NewRunChart precision refreshRateMs) calls = some c ∧ linesNonempty c ∧
      (Draw lib { c with Inner := inner } now).isSome = true ∧
      (renderLines lib { c with Inner := inner } drawArea).isSome = true ∧
      (renderLegend lib { c with Inner := inner }).isSome = true := by
  obtain ⟨c, hc, hn⟩ := run_spec lib (NewRunChart precision refreshRateMs) calls
    (by intro line hline; simp [NewRunChart] at hline)
  have hn' : linesNonempty { c with Inner := inner } := hn
  obtain ⟨c1, frame, hd, _⟩ := Draw_spec lib { c with Inner := inner } now hn'
  obtain ⟨c2, segments, hr, _⟩ := renderLines_spec lib { c with Inner := inner } drawArea
  obtain ⟨legend, hleg⟩ := renderLegend_isSome lib { c with Inner := inner } c.lines hn
  refine ⟨c, hc, hn, by rw [hd]; rfl, by rw [hr]; rfl, ?_⟩
  have : renderLegend lib { c with Inner := inner } = some legend := hleg
  rw [this]; rfl

/-- C9: on every chart whose timescale was computed by `calculateTimescale` (as `NewRunChart`
does), for every grid and every instant `t` with `timeRange.max - timescale ≤ t ≤ timeRange.max`,
the time coordinate of `t` lies between `maxTimeWidth - xAxisGridWidth` and `maxTimeWidth`; the
coordinate of `timeRange.max` is `maxTimeWidth` and the coordinate of `timeRange.max - timescale`
is `maxTimeWidth - xAxisGridWidth`. -/
theorem calculateTimeCoordinate_within_column (inner : Rectangle) (lines : List timeLine)
    (grid : chartGrid) (precision refreshRateMs : Int) (t : Int) :
    (grid.timeRange.max - calculateTimescale refreshRateMs ≤ t → t ≤ grid.timeRange.max →
        grid.maxTimeWidth - xAxisGridWidth ≤
            calculateTimeCoordinate
              ⟨inner, lines, grid, precision, calculateTimescale refreshRateMs⟩ t ∧
          calculateTimeCoordinate
              ⟨inner, lines, grid, precision, calculateTimescale refreshRateMs⟩ t ≤
            grid.maxTimeWidth) ∧
      calculateTimeCoordinate ⟨inner, lines, grid, precision, calculateTimescale refreshRateMs⟩
          grid.timeRange.max = grid.maxTimeWidth ∧
      calculateTimeCoordinate ⟨inner, lines, grid, precision, calculateTimescale refreshRateMs⟩
          (grid.timeRange.max - calculateTimescale refreshRateMs) =
        grid.maxTimeWidth - xAxisGridWidth := by
  have hne := calculateTimescale_ne_zero refreshRateMs
  have hr := calculateTimescale_range refreshRateMs
  refine ⟨?_, calculateTimeCoordinate_at_max _,
    calculateTimeCoordinate_one_timescale
      ⟨inner, lines, grid, precision, calculateTimescale refreshRateMs⟩ hne hr⟩
  intro h1 h2
  have hpos : 0 < calculateTimescale refreshRateMs := by omega
  have hs : Sub grid.timeRange.max t = grid.timeRange.max - t := by
    apply Sub_of_range
    · unfold minDuration; omega
    · omega
  have hb := relation_bounds (grid.timeRange.max - t) (calculateTimescale refreshRateMs)
    (by omega) (by omega) hpos
  have ht := truncToInt_between hb.1 hb.2
  unfold calculateTimeCoordinate
  simp only [hs]
  have hx : xAxisGridWidth = 10 := rfl
  omega

/-- C9 (witness): a chart built for a refresh interval of 1000 ms (a timescale of five seconds),
with the grid ending at instant 100 s at column 80, and an instant two seconds earlier. -/
theorem calculateTimeCoordinate_within_column_witness :
    (80 : Int) - xAxisGridWidth ≤ calculateTimeCoordinate
        ⟨⟨⟨0, 0⟩, ⟨80, 24⟩⟩, [], ⟨⟨.fin 0, .fin 0⟩, ⟨100000000000, 65000000000⟩, 7, 10, 80, 4⟩,
          2, calculateTimescale 1000⟩ 98000000000 ∧
      calculateTimeCoordinate
        ⟨⟨⟨0, 0⟩, ⟨80, 24⟩⟩, [], ⟨⟨.fin 0, .fin 0⟩, ⟨100000000000, 65000000000⟩, 7, 10, 80, 4⟩,
          2, calculateTimescale 1000⟩ 98000000000 ≤ 80 :=
  (calculateTimeCoordinate_within_column ⟨⟨0, 0⟩, ⟨80, 24⟩⟩ []
    ⟨⟨.fin 0, .fin 0⟩, ⟨100000000000, 65000000000⟩, 7, 10, 80, 4⟩ 2 1000 98000000000).1
    (by rw [calculateTimescale_thousand]; decide) (by decide)

end Sampler
